import Mathlib

/-!
# PIvote : election state, session handler and credential ledger

A shallow embedding of `PIVOTE_SERVEUR_V2.c` and `auth.c`.

* C strings are lists of characters (the content before the terminating NUL).
* The global arrays `electeurs[MAX]` / `candidats[MAX]` together with their
  counters `nbElecteurs` / `nbCandidats` are lists (the used prefix of the array).
* The `int` fields are integers of Lean.  Where the code computes or converts an
  `int` (`voix++`, `atoi`, the `%d` conversions of `sscanf`) the result is cut to
  32 bits in two's complement by `wrapInt`, as the compiled program does.
* The handler is embedded sequentially: one session at a time, as the single
  accept loop of `threadServeurReseau` runs them.
* Files are the character sequences that the C text streams deliver; the functions of
  the `scanf` family are embedded conversion by conversion.
-/

namespace PIvote

/-- C string content: the characters that precede the terminating NUL. -/
abbrev CStr := List Char

/-- Constant `MAX` of the server: capacity of the two global arrays. -/
def MAX : Nat := 100

/-- Largest value of an `int` (32 bits). -/
def INT_MAX : Int := 2147483647

/-- Smallest value of an `int` (32 bits). -/
def INT_MIN : Int := -2147483648

/-- The `int` that holds the mathematical value `x`: `x` reduced modulo `2^32` into
`INT_MIN .. INT_MAX` (two's complement). -/
def wrapInt (x : Int) : Int := (x + 2147483648) % 4294967296 - 2147483648

/-- The `int` obtained from a decimal numeral of value `v` by `atoi` or by a `%d`
conversion: both go through `strtol`, which saturates at the bounds of a 64-bit `long`,
and the `long` is then cut to an `int`. -/
def versInt (v : Int) : Int :=
  wrapInt (max (-9223372036854775808) (min v 9223372036854775807))

/-- Record `Electeur` of the server. -/
structure Electeur where
  id : Int
  nom : CStr
  a_vote : Int
  vote_blanc : Int
  username : CStr
deriving DecidableEq

/-- Record `Candidat` of the server. -/
structure Candidat where
  id : Int
  nom : CStr
  voix : Int
deriving DecidableEq

/-- The global election state: `electeurs[0..nbElecteurs)`, `candidats[0..nbCandidats)`
and `voteOuvert`. -/
structure Etat where
  electeurs : List Electeur
  candidats : List Candidat
  voteOuvert : Int
deriving DecidableEq

/-- Inner loop of the vote step (`for j ... candidats[j].id == idC`): the first
candidate whose id is `idC` gets `voix++` (an `int` increment, which wraps at `INT_MAX`);
the second component is `candidatTrouve`. -/
def boucleCandidats (idC : Int) : List Candidat → List Candidat × Int
  | [] => ([], 0)
  | c :: cs =>
    if c.id = idC then ({ c with voix := wrapInt (c.voix + 1) } :: cs, 1)
    else (c :: (boucleCandidats idC cs).1, (boucleCandidats idC cs).2)

/-- Outer loop of the vote step (`for i ... electeurs[i]`): the first voter whose id is
`idE`, whose username is the session login and whose `a_vote` is 0 votes; the loop
then breaks.  Returns the voters, the candidates and `ok`. -/
def boucleElecteurs (username : CStr) (idE idC : Int) (cands : List Candidat) :
    List Electeur → List Electeur × List Candidat × Int
  | [] => ([], cands, 0)
  | e :: es =>
    if e.id = idE ∧ e.username = username ∧ e.a_vote = 0 then
      ({ e with vote_blanc := if (boucleCandidats idC cands).2 ≠ 0 then 0 else 1,
                a_vote := 1 } :: es,
       (boucleCandidats idC cands).1, 1)
    else
      (e :: (boucleElecteurs username idE idC cands es).1,
       (boucleElecteurs username idE idC cands es).2.1,
       (boucleElecteurs username idE idC cands es).2.2)

/-- Step 3 of `threadServeurReseau` after the request has been scanned into
`cmd2`, `idE`, `idC`; `username` is the login authenticated in step 1.
Returns the new election state and `ok`. -/
def threadServeurReseau_vote (s : Etat) (cmd2 username : CStr) (idE idC : Int) : Etat × Int :=
  if cmd2 = "VOTE".toList ∧ s.voteOuvert ≠ 0 then
    ({ s with
        electeurs := (boucleElecteurs username idE idC s.candidats s.electeurs).1,
        candidats := (boucleElecteurs username idE idC s.candidats s.electeurs).2.1 },
     (boucleElecteurs username idE idC s.candidats s.electeurs).2.2)
  else (s, 0)

/-- The reply sent after the vote step: `OK` when `ok` is set, `ERREUR` otherwise. -/
def reponseVote (ok : Int) : CStr :=
  if ok ≠ 0 then "OK".toList else "ERREUR".toList

/-- One vote request as the vote step sees it. -/
structure Soumission where
  cmd2 : CStr
  username : CStr
  idE : Int
  idC : Int
deriving DecidableEq

/-- Successive iterations of the accept loop, restricted to their vote step: every
submission is paired with the `ok` it obtained. -/
def rejouer : Etat → List Soumission → List (Soumission × Int)
  | _, [] => []
  | s, q :: qs =>
    (q, (threadServeurReseau_vote s q.cmd2 q.username q.idE q.idC).2) ::
      rejouer (threadServeurReseau_vote s q.cmd2 q.username q.idE q.idC).1 qs

/-- Sum of `voix` over the candidates. -/
def totalVoix (cs : List Candidat) : Int := (cs.map (·.voix)).sum

/-- Number of voters with `vote_blanc = 1`. -/
def nbBlancs (es : List Electeur) : Nat := es.countP (fun e => decide (e.vote_blanc = 1))

/-- Number of voters with `a_vote = 1`. -/
def nbVotants (es : List Electeur) : Nat := es.countP (fun e => decide (e.a_vote = 1))

/-! ## The credential ledger (`auth.c`) -/

/-- Return codes of the library (`AuthStatus`). -/
inductive AuthStatus where
  | AUTH_OK
  | AUTH_ERR_IO
  | AUTH_ERR_FORMAT
  | AUTH_ERR_NOTFOUND
  | AUTH_ERR_EXISTS
  | AUTH_ERR_INVALID
deriving DecidableEq

open AuthStatus

/-- Maximum length of a stored login. -/
def AUTH_MAX_USERNAME : Nat := 64

/-- Maximum length of a stored password. -/
def AUTH_MAX_PASSWORD : Nat := 64

/-- Maximum length of a stored role. -/
def AUTH_MAX_ROLE : Nat := 32

/-- Size of the line buffer handed to `fgets`. -/
def AUTH_MAX_LINE : Nat := 512

/-- Record `AuthUser`. -/
structure AuthUser where
  username : CStr
  password : CStr
  role : CStr
  active : Int
deriving DecidableEq

/-- The users file as the C text stream presents it: `contenu` is the character
sequence a read delivers (`none` when the file does not exist), `lisible` tells whether
`fopen(path, "r")` succeeds on an existing file and `inscriptible` whether
`fopen(path, "w")` succeeds.  A successful `fprintf` is assumed once a stream is open,
and `realloc` is assumed to succeed. -/
structure Fichier where
  contenu : Option (List Char)
  lisible : Bool
  inscriptible : Bool
deriving DecidableEq

/-- Result of `fopen(path, "r")`: the text of the file, or `none` for a NULL stream. -/
def fopen_r (f : Fichier) : Option (List Char) :=
  if f.lisible then f.contenu else none

/-- Result of `fopen(path, "w")` followed by writing `txt` and `fclose`: the new file,
or `none` for a NULL stream (the file is then left as it was). -/
def fopen_w (f : Fichier) (txt : List Char) : Option Fichier :=
  if f.inscriptible then some { f with contenu := some txt } else none

/-- Function `auth_chomp`: drops a final newline or carriage return, then one more. -/
def auth_chomp (s : CStr) : CStr :=
  match s.getLast? with
  | none => s
  | some c =>
    if c = '\n' ∨ c = '\r' then
      match s.dropLast.getLast? with
      | none => s.dropLast
      | some d => if d = '\n' ∨ d = '\r' then s.dropLast.dropLast else s.dropLast
    else s

/-- One call of `strtok` with the delimiter set `";"` on the text left to scan:
leading delimiters are skipped; NULL (`none`) when nothing is left; otherwise the
token and the text after the delimiter that ended it. -/
def strtok (reste : CStr) : Option (CStr × CStr) :=
  match reste.dropWhile (fun c => decide (c = ';')) with
  | [] => none
  | c :: r =>
    some ((c :: r).takeWhile (fun c => decide (c ≠ ';')),
          ((c :: r).dropWhile (fun c => decide (c ≠ ';'))).drop 1)

/-- Copy made by `strncpy(dst, src, n); dst[n] = 0`: the first `n` characters. -/
def strncpy (n : Nat) (src : CStr) : CStr := src.take n

/-- Predicate `isspace` of the C locale. -/
def isspace (c : Char) : Bool :=
  c = ' ' || c = '\t' || c = '\n' || c = '\x0b' || c = '\x0c' || c = '\r'

/-- Value of the leading run of decimal digits, accumulated from `acc`. -/
def chiffres : CStr → Nat → Nat
  | [], acc => acc
  | c :: r, acc =>
    if '0' ≤ c ∧ c ≤ '9' then chiffres r (acc * 10 + (c.toNat - '0'.toNat)) else acc

/-- Function `atoi`, that is `(int) strtol(s, NULL, 10)`: white space, an optional sign,
then decimal digits; the value is brought into an `int` by `versInt`. -/
def atoi (s : CStr) : Int :=
  versInt
    (match s.dropWhile isspace with
     | '-' :: r => - (chiffres r 0 : Int)
     | '+' :: r => (chiffres r 0 : Int)
     | r => (chiffres r 0 : Int))

/-- Function `auth_parse_line`: `ok u` stands for `AUTH_OK` with `*out_user = u`,
`error st` for the status `st` with `out_user` not filled. -/
def auth_parse_line (line : CStr) : Except AuthStatus AuthUser :=
  match strtok (auth_chomp line) with
  | none => .error AUTH_ERR_FORMAT
  | some (username, r1) =>
    match strtok r1 with
    | none => .error AUTH_ERR_FORMAT
    | some (password, r2) =>
      match strtok r2 with
      | none => .error AUTH_ERR_FORMAT
      | some (role, r3) =>
        match strtok r3 with
        | none => .error AUTH_ERR_FORMAT
        | some (active_s, _) =>
          .ok { username := strncpy AUTH_MAX_USERNAME username,
                password := strncpy AUTH_MAX_PASSWORD password,
                role := strncpy AUTH_MAX_ROLE role,
                active := if atoi active_s ≠ 0 then 1 else 0 }

/-- Text printed by `auth_fprint_user`: `username;password;role;active` and a newline. -/
def auth_fprint_user (u : AuthUser) : List Char :=
  u.username ++ ';' :: (u.password ++ ';' :: (u.role ++ ';' ::
    ((if u.active ≠ 0 then '1' else '0') :: ['\n'])))

/-- One call `fgets(line, n + 1, f)` on a stream with text left: at most `n`
characters, stopping after a newline.  Returns the buffer and the text left. -/
def fgets : Nat → List Char → List Char × List Char
  | 0, txt => ([], txt)
  | _ + 1, [] => ([], [])
  | n + 1, c :: r =>
    if c = '\n' then ([c], r) else (c :: (fgets n r).1, (fgets n r).2)

/-- The C string held by a buffer: its content up to the first NUL. -/
def cstr (buf : List Char) : CStr := buf.takeWhile (fun c => decide (c ≠ '\x00'))

/-- The `while (fgets(...))` loop of `auth_list_users` over the text left to read, with
`list` the users read so far.  The first argument bounds the number of iterations
(`none` when it is exhausted); each iteration consumes at least one character. -/
def auth_list_users_loop : Nat → List Char → List AuthUser → Option (AuthStatus × List AuthUser)
  | 0, _, _ => none
  | _ + 1, [], list => some (AUTH_OK, list)
  | fuel + 1, c :: r, list =>
    match auth_parse_line (cstr (fgets (AUTH_MAX_LINE - 1) (c :: r)).1) with
    | .error _ => some (AUTH_ERR_FORMAT, [])
    | .ok u => auth_list_users_loop fuel (fgets (AUTH_MAX_LINE - 1) (c :: r)).2 (list ++ [u])

/-- Function `auth_list_users`: the status and the array `*out_users` (empty, that is
NULL with `*out_count = 0`, on failure). -/
def auth_list_users (f : Fichier) : AuthStatus × List AuthUser :=
  match fopen_r f with
  | none => ( AUTH_ERR_IO, [])
  | some txt => (auth_list_users_loop (txt.length + 1) txt []).getD ( AUTH_ERR_IO, [])

/-- Function `auth_save_all`: replaces the file by the printed users. -/
def auth_save_all (f : Fichier) (users : List AuthUser) : AuthStatus × Fichier :=
  match fopen_w f (users.flatMap auth_fprint_user) with
  | none => ( AUTH_ERR_IO, f)
  | some g => (AUTH_OK, g)

/-- Function `auth_init`: creates an empty file when none can be opened for reading. -/
def auth_init (f : Fichier) : AuthStatus × Fichier :=
  match fopen_r f with
  | some _ => (AUTH_OK, f)
  | none =>
    match fopen_w f [] with
    | none => ( AUTH_ERR_IO, f)
    | some g => (AUTH_OK, g)

/-- Function `auth_register_user` (non-NULL arguments): status and resulting file. -/
def auth_register_user (f : Fichier) (username password role : CStr) : AuthStatus × Fichier :=
  if (auth_init f).1 ≠ AUTH_OK then auth_init f
  else if (auth_list_users (auth_init f).2).1 ≠ AUTH_OK ∧
      (auth_list_users (auth_init f).2).1 ≠ AUTH_ERR_IO then
    ((auth_list_users (auth_init f).2).1, (auth_init f).2)
  else if ∃ u ∈ (auth_list_users (auth_init f).2).2, u.username = username then
    (AUTH_ERR_EXISTS, (auth_init f).2)
  else
    auth_save_all (auth_init f).2
      ((auth_list_users (auth_init f).2).2 ++
        [{ username := strncpy AUTH_MAX_USERNAME username,
           password := strncpy AUTH_MAX_PASSWORD password,
           role := strncpy AUTH_MAX_ROLE role,
           active := 1 }])

/-- The search loop of `auth_authenticate` over the users read; `out_user` is the
content of `*out_user` before the call, the result holds its content after it. -/
def auth_authenticate_loop (username password : CStr) (out_user : AuthUser) :
    List AuthUser → AuthStatus × AuthUser
  | [] => (AUTH_ERR_NOTFOUND, out_user)
  | u :: us =>
    if u.username = username then
      if u.active = 0 then (AUTH_ERR_INVALID, out_user)
      else if u.password = password then (AUTH_OK, u)
      else (AUTH_ERR_INVALID, out_user)
    else auth_authenticate_loop username password out_user us

/-- Function `auth_authenticate` (non-NULL arguments): status and content of `*out_user`
after the call. -/
def auth_authenticate (f : Fichier) (username password : CStr) (out_user : AuthUser) :
    AuthStatus × AuthUser :=
  if (auth_list_users f).1 ≠ AUTH_OK then ((auth_list_users f).1, out_user)
  else auth_authenticate_loop username password out_user (auth_list_users f).2

/-- The search loop shared by `auth_change_password` and `auth_set_active`: the first
index whose login is `username` with the record stored there; `none` is `(size_t)-1`. -/
def chercherIndex (username : CStr) : List AuthUser → Option (Nat × AuthUser)
  | [] => none
  | u :: us =>
    if u.username = username then some (0, u)
    else (chercherIndex username us).map (fun p => (p.1 + 1, p.2))

/-- Function `auth_change_password`; `old_password = none` is the NULL argument. -/
def auth_change_password (f : Fichier) (username : CStr) (old_password : Option CStr)
    (new_password : CStr) : AuthStatus × Fichier :=
  if (auth_list_users f).1 ≠ AUTH_OK then ((auth_list_users f).1, f)
  else
    match chercherIndex username (auth_list_users f).2 with
    | none => (AUTH_ERR_NOTFOUND, f)
    | some (index, u) =>
      if old_password.isSome ∧ old_password ≠ some u.password then (AUTH_ERR_INVALID, f)
      else
        auth_save_all f ((auth_list_users f).2.set index
          { u with password := strncpy AUTH_MAX_PASSWORD new_password })

/-- Function `auth_set_active`. -/
def auth_set_active (f : Fichier) (username : CStr) (active : Int) : AuthStatus × Fichier :=
  if (auth_list_users f).1 ≠ AUTH_OK then ((auth_list_users f).1, f)
  else
    match chercherIndex username (auth_list_users f).2 with
    | none => (AUTH_ERR_NOTFOUND, f)
    | some (index, u) =>
      auth_save_all f ((auth_list_users f).2.set index
        { u with active := if active ≠ 0 then 1 else 0 })

/-! ## Operator actions on the election state -/

/-- Function `ajouterElecteur` once the console has filled `e.id`, `e.nom`, `username`
and `password`: the new election state and the new users file. -/
def ajouterElecteur (s : Etat) (f : Fichier) (id : Int) (nom username password : CStr) :
    Etat × Fichier :=
  if s.electeurs.length ≥ MAX then (s, f)
  else if ∃ e ∈ s.electeurs, e.id = id then (s, f)
  else if (auth_register_user f username password "votant".toList).1 = AUTH_ERR_EXISTS then
    (s, (auth_register_user f username password "votant".toList).2)
  else if (auth_register_user f username password "votant".toList).1 ≠ AUTH_OK then
    (s, (auth_register_user f username password "votant".toList).2)
  else
    ({ s with electeurs := s.electeurs ++
        [{ id := id, nom := nom, a_vote := 0, vote_blanc := 0,
           username := strncpy AUTH_MAX_USERNAME username }] },
     (auth_register_user f username password "votant".toList).2)

/-- Function `ajouterCandidat` once the console has filled `c.id` and `c.nom`. -/
def ajouterCandidat (s : Etat) (id : Int) (nom : CStr) : Etat :=
  if s.candidats.length ≥ MAX then s
  else { s with candidats := s.candidats ++ [{ id := id, nom := nom, voix := 0 }] }

/-- Function `ouvrirVote`. -/
def ouvrirVote (s : Etat) : Etat := { s with voteOuvert := 1 }

/-- Function `fermerVote`. -/
def fermerVote (s : Etat) : Etat := { s with voteOuvert := 0 }

/-- The election at program start: no voter, no candidate, vote closed. -/
def etatVide : Etat := { electeurs := [], candidats := [], voteOuvert := 0 }

/-- The actions that change the election state. -/
inductive Action where
  | ajouterElecteur (id : Int) (nom username password : CStr)
  | ajouterCandidat (id : Int) (nom : CStr)
  | ouvrirVote
  | fermerVote
  | vote (q : Soumission)

/-- Effect of one action on the election state and the users file. -/
def executer (w : Etat × Fichier) : Action → Etat × Fichier
  | .ajouterElecteur id nom username password => ajouterElecteur w.1 w.2 id nom username password
  | .ajouterCandidat id nom => (ajouterCandidat w.1 id nom, w.2)
  | .ouvrirVote => (ouvrirVote w.1, w.2)
  | .fermerVote => (fermerVote w.1, w.2)
  | .vote q => ((threadServeurReseau_vote w.1 q.cmd2 q.username q.idE q.idC).1, w.2)

/-- Effect of a sequence of actions. -/
def executerTout (w : Etat × Fichier) (as : List Action) : Etat × Fichier :=
  as.foldl executer w

/-! ## Predicates used by the statements -/

/-- A voter record is selected by the vote step for the request `(username, idE)`. -/
def Eligible (username : CStr) (idE : Int) (e : Electeur) : Prop :=
  e.id = idE ∧ e.username = username ∧ e.a_vote = 0

instance instDecidableEligible (username : CStr) (idE : Int) (e : Electeur) :
    Decidable (Eligible username idE e) := by
  unfold Eligible; infer_instance

/-- The record written back for the selected voter. -/
def marquer (trouve : Int) (e : Electeur) : Electeur :=
  { e with vote_blanc := if trouve ≠ 0 then 0 else 1, a_vote := 1 }

/-- Every voter record carrying the id `v` has already voted. -/
def Bloque (v : Int) (es : List Electeur) : Prop :=
  ∀ e ∈ es, e.id = v → e.a_vote ≠ 0

/-- The tally invariant, with what keeps it inductive: a voter who has not voted has
no blank vote recorded, no `voix` is negative, and the roster fits its array. -/
def Inv (s : Etat) : Prop :=
  totalVoix s.candidats + (nbBlancs s.electeurs : Int) = (nbVotants s.electeurs : Int) ∧
  (∀ e ∈ s.electeurs, e.a_vote = 0 → e.vote_blanc = 0) ∧
  (∀ c ∈ s.candidats, 0 ≤ c.voix) ∧
  s.electeurs.length ≤ MAX

/-- A field that the record format carries unchanged: not empty, and free of the
delimiter, of the newline and of NUL. -/
def ChampValide (x : CStr) : Prop :=
  x ≠ [] ∧ ∀ c ∈ x, c ≠ ';' ∧ c ≠ '\n' ∧ c ≠ '\x00'

instance instDecidableChampValide (x : CStr) : Decidable (ChampValide x) := by
  unfold ChampValide; infer_instance

/-- A record that the record format carries unchanged: valid fields within the length
limits of `AuthUser` and an `active` flag that is 0 or 1. -/
def EnregistrementValide (u : AuthUser) : Prop :=
  ChampValide u.username ∧ u.username.length ≤ AUTH_MAX_USERNAME ∧
  ChampValide u.password ∧ u.password.length ≤ AUTH_MAX_PASSWORD ∧
  ChampValide u.role ∧ u.role.length ≤ AUTH_MAX_ROLE ∧
  (u.active = 0 ∨ u.active = 1)

instance instDecidableEnregistrementValide (u : AuthUser) :
    Decidable (EnregistrementValide u) := by
  unfold EnregistrementValide; infer_instance

/-- A buffer in which a newline can only be the last character. -/
def NewlineLast (l : List Char) : Prop :=
  ∀ pre post : List Char, l = pre ++ '\n' :: post → post = []

/-! ## Sample data -/

/-- Sample election: voter 1 (login alice), candidate 5, vote open. -/
def etatAlice : Etat :=
  { electeurs := [{ id := 1, nom := "Alice".toList, a_vote := 0, vote_blanc := 0,
                    username := "alice".toList }],
    candidats := [{ id := 5, nom := "Bob".toList, voix := 0 }],
    voteOuvert := 1 }

/-- Sample submission `VOTE 1 5` in a session authenticated as alice. -/
def voteAlice : Soumission :=
  { cmd2 := "VOTE".toList, username := "alice".toList, idE := 1, idC := 5 }

/-- Sample account: alice, active. -/
def compteAlice : AuthUser :=
  { username := "alice".toList, password := "pw".toList, role := "votant".toList, active := 1 }

/-- Sample account: bob, disabled. -/
def compteBob : AuthUser :=
  { username := "bob".toList, password := "x".toList, role := "admin".toList, active := 0 }

/-- Sample users file holding alice and bob, readable and writable. -/
def fichierDeux : Fichier :=
  { contenu := some "alice;pw;votant;1\nbob;x;admin;0\n".toList,
    lisible := true, inscriptible := true }

/-- Sample users file holding alice only, readable and writable. -/
def fichierAlice : Fichier :=
  { contenu := some "alice;pw;votant;1\n".toList, lisible := true, inscriptible := true }

/-- A login of 65 characters, one more than `AUTH_MAX_USERNAME`. -/
def loginLong : CStr := List.replicate 65 'a'

/-- An empty users file, readable and writable (as `auth_init` creates it). -/
def fichierVide : Fichier :=
  { contenu := some [], lisible := true, inscriptible := true }

/-- A users file holding alice that cannot be opened for reading but can be opened
for writing. -/
def fichierIllisible : Fichier :=
  { contenu := some "alice;pw;votant;1\n".toList, lisible := false, inscriptible := true }

/-- A users file holding alice that can be read but not opened for writing. -/
def fichierLectureSeule : Fichier :=
  { contenu := some "alice;pw;votant;1\n".toList, lisible := true, inscriptible := false }

/-- An account whose password holds the delimiter; every field fits the length limits. -/
def compteDelim : AuthUser :=
  { username := "bob".toList, password := "p;q".toList, role := "votant".toList, active := 1 }

/-- The successive buffers that the `fgets` loop of `auth_list_users` reads from a text;
the first argument bounds their number. -/
def lireLignes : Nat → List Char → List (List Char)
  | 0, _ => []
  | _ + 1, [] => []
  | fuel + 1, c :: r =>
    (fgets (AUTH_MAX_LINE - 1) (c :: r)).1 :: lireLignes fuel (fgets (AUTH_MAX_LINE - 1) (c :: r)).2

/-- The lines of a users file as `auth_list_users` reads them. -/
def lignes (txt : List Char) : List (List Char) := lireLignes (txt.length + 1) txt

/-- Splitting of a record at every `;`: the fields, empty ones included. -/
def decouper : CStr → List CStr
  | [] => [[]]
  | c :: r =>
    if c = ';' then [] :: decouper r
    else (c :: (decouper r).headD []) :: (decouper r).tail

/-- The non-empty fields of a line buffer: the buffer is cut at a NUL, stripped of its
line end, split at every `;`, and the empty fields are dropped. -/
def champs (l : List Char) : List CStr :=
  (decouper (auth_chomp (cstr l))).filter (fun x => decide (x ≠ []))

/-- A users file with one line of five fields. -/
def fichierCinqChamps : Fichier :=
  { contenu := some "a;b;c;1;extra\n".toList, lisible := true, inscriptible := true }

/-! ## The session handler (`threadServeurReseau`) -/

/-- Constant `BUFFER`: size of the receive buffer. -/
def BUFFER : Nat := 2048

/-- The characters kept by a `%s` conversion out of the word in front of it: all of
them without a width, the first `n` with the width `n`. -/
def prendre (largeur : Option Nat) (mot : CStr) : CStr :=
  match largeur with
  | none => mot
  | some n => mot.take n

/-- A conversion `%s` (`largeur = none`) or `%Ns` (`largeur = some N`) of the `scanf`
family on the text left to scan: white space is skipped, then the characters up to the
next white space are read, at most `N` of them; the conversion fails (`none`) at
the end of the input.  Returns the string stored and the text left. -/
def scan_s (largeur : Option Nat) (s : CStr) : Option (CStr × CStr) :=
  match s.dropWhile isspace with
  | [] => none
  | c :: r =>
    some (prendre largeur ((c :: r).takeWhile (fun x => !isspace x)),
          (c :: r).drop (prendre largeur ((c :: r).takeWhile (fun x => !isspace x))).length)

/-- Decimal digit test. -/
def estChiffre (c : Char) : Bool := decide ('0' ≤ c ∧ c ≤ '9')

/-- The digits and the text left of a `%d` conversion once white space and sign are
passed: at least one digit is required.  The value is the mathematical one. -/
def scan_chiffres (r : CStr) : Option (Nat × CStr) :=
  if r.takeWhile estChiffre = [] then none
  else some (chiffres r 0, r.dropWhile estChiffre)

/-- A conversion `%d` of the `scanf` family: white space is skipped, an optional sign is
read, then decimal digits; it fails (`none`) when no digit is found.  The value returned
is the one of the numeral; bringing it into the `int` that receives it is left to the
call (`sscanf_vote` does it with `versInt`). -/
def scan_d (s : CStr) : Option (Int × CStr) :=
  match s.dropWhile isspace with
  | '-' :: r => (scan_chiffres r).map (fun p => (-(p.1 : Int), p.2))
  | '+' :: r => (scan_chiffres r).map (fun p => ((p.1 : Int), p.2))
  | r => (scan_chiffres r).map (fun p => ((p.1 : Int), p.2))

/-- The call `sscanf(buffer, "%15s %64s %64s", cmd, username, password)`: its return
value and the three buffers; a buffer that the call does not assign is shown empty
(the handler reads none of them unless the return value is 3). -/
def sscanf_auth (buffer : CStr) : Int × CStr × CStr × CStr :=
  match scan_s (some 15) buffer with
  | none => (-1, [], [], [])
  | some (cmd, r1) =>
    match scan_s (some AUTH_MAX_USERNAME) r1 with
    | none => (1, cmd, [], [])
    | some (username, r2) =>
      match scan_s (some AUTH_MAX_PASSWORD) r2 with
      | none => (2, cmd, username, [])
      | some (password, _) => (3, cmd, username, password)

/-- The call `sscanf(buffer, "%15s %d %d", cmd2, &idE, &idC)` after `idE = -1, idC = -1`;
`cmd2_0` is the content of the uninitialised `cmd2`, kept when nothing is scanned.  A
value that `%d` reads is stored as an `int` (`versInt`). -/
def sscanf_vote (buffer cmd2_0 : CStr) : CStr × Int × Int :=
  match scan_s (some 15) buffer with
  | none => (cmd2_0, -1, -1)
  | some (cmd2, r1) =>
    match scan_d r1 with
    | none => (cmd2, -1, -1)
    | some (idE, r2) =>
      match scan_d r2 with
      | none => (cmd2, versInt idE, -1)
      | some (idC, _) => (cmd2, versInt idE, versInt idC)

/-- The character of a decimal digit. -/
def chiffre : Nat → Char
  | 0 => '0' | 1 => '1' | 2 => '2' | 3 => '3' | 4 => '4'
  | 5 => '5' | 6 => '6' | 7 => '7' | 8 => '8' | _ => '9'

/-- Decimal digits of `n`, most significant first; the first argument bounds their
number. -/
def chiffresDe : Nat → Nat → List Char
  | 0, _ => []
  | fuel + 1, n =>
    if n < 10 then [chiffre n] else chiffresDe fuel (n / 10) ++ [chiffre (n % 10)]

/-- Text printed by `%d` for a natural number. -/
def ecrireNat (n : Nat) : List Char := chiffresDe (n + 1) n

/-- Text printed by `%d`. -/
def ecrireInt : Int → List Char
  | .ofNat n => ecrireNat n
  | .negSucc n => '-' :: ecrireNat (n + 1)

/-- The line `"[%d] %s\n"` of one candidate in the list sent to the client. -/
def ligneCandidat (c : Candidat) : CStr :=
  '[' :: (ecrireInt c.id ++ ']' :: ' ' :: (c.nom ++ ['\n']))

/-- The text that step 2 builds in `listeCandidatsStr` with `strcpy`, `sprintf` and
`strcat`, then sends.  The array has `BUFFER` bytes: the C code is defined only while
this text is shorter than `BUFFER`, and a statement about the list sent carries that
condition as a hypothesis. -/
def listeCandidats (cs : List Candidat) : CStr :=
  "\n--- LISTE DES CANDIDATS ---\n".toList ++ (cs.flatMap ligneCandidat ++
    "[0] VOTE BLANC\n---------------------------\n".toList)

/-- Content given to the local `uAuth` before `auth_authenticate` fills it; it is read
only after `AUTH_OK`, when it has been overwritten. -/
def uAuth0 : AuthUser := { username := [], password := [], role := [], active := 0 }

/-- One iteration of the accept loop of `threadServeurReseau`: `req1` and `req2` are the
bytes delivered by the two calls of `recv` (empty when `recv` returns no byte), `cmd2_0`
the content of the uninitialised `cmd2`.  Returns the messages sent to the client, in
order, and the election state after the session. -/
def threadServeurReseau_session (s : Etat) (f : Fichier) (req1 req2 cmd2_0 : List Char) :
    List CStr × Etat :=
  if req1 = [] then ([], s)
  else if (sscanf_auth (cstr (req1.take (BUFFER - 1)))).1 ≠ 3 ∨
      (sscanf_auth (cstr (req1.take (BUFFER - 1)))).2.1 ≠ "AUTH".toList then
    (["AUTH_FAIL".toList], s)
  else if (auth_authenticate f (sscanf_auth (cstr (req1.take (BUFFER - 1)))).2.2.1
        (sscanf_auth (cstr (req1.take (BUFFER - 1)))).2.2.2 uAuth0).1 ≠ AUTH_OK ∨
      (auth_authenticate f (sscanf_auth (cstr (req1.take (BUFFER - 1)))).2.2.1
        (sscanf_auth (cstr (req1.take (BUFFER - 1)))).2.2.2 uAuth0).2.role ≠ "votant".toList then
    (["AUTH_FAIL".toList], s)
  else if req2 = [] then (["AUTH_OK".toList, listeCandidats s.candidats], s)
  else
    (["AUTH_OK".toList, listeCandidats s.candidats,
      reponseVote (threadServeurReseau_vote s
        (sscanf_vote (cstr (req2.take (BUFFER - 1))) cmd2_0).1
        (sscanf_auth (cstr (req1.take (BUFFER - 1)))).2.2.1
        (sscanf_vote (cstr (req2.take (BUFFER - 1))) cmd2_0).2.1
        (sscanf_vote (cstr (req2.take (BUFFER - 1))) cmd2_0).2.2).2],
     (threadServeurReseau_vote s
        (sscanf_vote (cstr (req2.take (BUFFER - 1))) cmd2_0).1
        (sscanf_auth (cstr (req1.take (BUFFER - 1)))).2.2.1
        (sscanf_vote (cstr (req2.take (BUFFER - 1))) cmd2_0).2.1
        (sscanf_vote (cstr (req2.take (BUFFER - 1))) cmd2_0).2.2).1)

/-- Splitting of a text at every white-space character: the pieces, empty ones
included. -/
def decouperBlancs : CStr → List CStr
  | [] => [[]]
  | c :: r =>
    if isspace c then [] :: decouperBlancs r
    else (c :: (decouperBlancs r).headD []) :: (decouperBlancs r).tail

/-- The words of a text: its maximal runs of characters other than white space. -/
def mots (s : CStr) : List CStr :=
  (decouperBlancs s).filter (fun x => decide (x ≠ []))

/-- A users file holding the voter bob whose password is 64 characters long. -/
def fichierLongMdp : Fichier :=
  { contenu := some ("bob;".toList ++ (List.replicate 64 'p' ++ ";votant;1\n".toList)),
    lisible := true, inscriptible := true }

/-- An authentication request for bob whose password token is 65 characters long. -/
def requeteLongMdp : List Char := "AUTH bob ".toList ++ List.replicate 65 'p'

/-! ## The election snapshot (`sauvegarderDonnees`, `chargerDonnees`) -/

/-- The line `"%d %s %d %d %s\n"` written for one voter. -/
def ligneElecteur (e : Electeur) : List Char :=
  ecrireInt e.id ++ ' ' :: (e.nom ++ ' ' :: (ecrireInt e.a_vote ++ ' ' ::
    (ecrireInt e.vote_blanc ++ ' ' :: (e.username ++ ['\n']))))

/-- The line `"%d %s %d\n"` written for one candidate. -/
def ligneCandidatSauvegarde (c : Candidat) : List Char :=
  ecrireInt c.id ++ ' ' :: (c.nom ++ ' ' :: (ecrireInt c.voix ++ ['\n']))

/-- The text that `sauvegarderDonnees` writes. -/
def texteSauvegarde (s : Etat) : List Char :=
  ecrireInt s.voteOuvert ++ '\n' :: (ecrireInt (s.electeurs.length : Int) ++ '\n' ::
    (s.electeurs.flatMap ligneElecteur ++
      (ecrireInt (s.candidats.length : Int) ++ '\n' ::
        s.candidats.flatMap ligneCandidatSauvegarde)))

/-- Function `sauvegarderDonnees` on the snapshot file `d`: the file after the call (left
as it was when it cannot be opened for writing). -/
def sauvegarderDonnees (s : Etat) (d : Fichier) : Fichier :=
  match fopen_w d (texteSauvegarde s) with
  | none => d
  | some g => g

/-- The text left in the stream after a `%d` conversion that fails: the white space, and
a sign if there is one, have been consumed. -/
def reste_d (s : CStr) : CStr :=
  match s.dropWhile isspace with
  | '-' :: r => r
  | '+' :: r => r
  | r => r

/-- One call `fscanf(f, "%d", &x)`: the value of `x` after the call (`ancien` when the
conversion fails) and the text left in the stream.  The value of the numeral is kept as
it is read, without the cut to 32 bits: the numerals that `sauvegarderDonnees` writes
are those of `int` fields, on which the cut changes nothing. -/
def fscanf_d (txt : CStr) (ancien : Int) : Int × CStr :=
  match scan_d txt with
  | none => (ancien, reste_d txt)
  | some (v, r) => (v, r)

/-- The voter record of a zero-initialised array slot. -/
def electeurZero : Electeur := { id := 0, nom := [], a_vote := 0, vote_blanc := 0, username := [] }

/-- The candidate record of a zero-initialised array slot. -/
def candidatZero : Candidat := { id := 0, nom := [], voix := 0 }

/-- One call `fscanf(f, "%d %s %d %d %s", ...)` of `chargerDonnees` into a zero-initialised
slot: the conversions stop at the first one that fails and the fields not reached keep
their zero.  The result is `none` when a `%s` stores more characters than its array
holds (`nom[50]`, `username[65]`), which C leaves undefined. -/
def lireElecteur (txt : CStr) : Option (Electeur × CStr) :=
  match scan_d txt with
  | none => some (electeurZero, reste_d txt)
  | some (id, r1) =>
    match scan_s none r1 with
    | none => some ({ electeurZero with id := id }, [])
    | some (nom, r2) =>
      if nom.length > 49 then none
      else
        match scan_d r2 with
        | none => some ({ electeurZero with id := id, nom := nom }, reste_d r2)
        | some (a_vote, r3) =>
          match scan_d r3 with
          | none => some ({ electeurZero with id := id, nom := nom, a_vote := a_vote }, reste_d r3)
          | some (vote_blanc, r4) =>
            match scan_s none r4 with
            | none =>
              some ({ electeurZero with id := id, nom := nom, a_vote := a_vote,
                                        vote_blanc := vote_blanc }, [])
            | some (username, r5) =>
              if username.length > AUTH_MAX_USERNAME then none
              else
                some ({ id := id, nom := nom, a_vote := a_vote, vote_blanc := vote_blanc,
                        username := username }, r5)

/-- One call `fscanf(f, "%d %s %d", ...)` of `chargerDonnees` into a zero-initialised
slot; `none` when the name does not fit `nom[50]`. -/
def lireCandidat (txt : CStr) : Option (Candidat × CStr) :=
  match scan_d txt with
  | none => some (candidatZero, reste_d txt)
  | some (id, r1) =>
    match scan_s none r1 with
    | none => some ({ candidatZero with id := id }, [])
    | some (nom, r2) =>
      if nom.length > 49 then none
      else
        match scan_d r2 with
        | none => some ({ candidatZero with id := id, nom := nom }, reste_d r2)
        | some (voix, r3) => some ({ id := id, nom := nom, voix := voix }, r3)

/-- The loop `for (i = 0; i < nbElecteurs; i++) fscanf(...)` of `chargerDonnees`. -/
def lireElecteurs : Nat → CStr → Option (List Electeur × CStr)
  | 0, txt => some ([], txt)
  | n + 1, txt =>
    match lireElecteur txt with
    | none => none
    | some (e, r) =>
      match lireElecteurs n r with
      | none => none
      | some (es, r2) => some (e :: es, r2)

/-- The loop `for (i = 0; i < nbCandidats; i++) fscanf(...)` of `chargerDonnees`. -/
def lireCandidats : Nat → CStr → Option (List Candidat × CStr)
  | 0, txt => some ([], txt)
  | n + 1, txt =>
    match lireCandidat txt with
    | none => none
    | some (c, r) =>
      match lireCandidats n r with
      | none => none
      | some (cs, r2) => some (c :: cs, r2)

/-- Function `chargerDonnees` as `main` calls it, on zero-initialised globals, reading
the snapshot file `d`: the election state after the call.  The result is `none` where C
leaves the behaviour undefined: a count above `MAX` (writes past the arrays) or a
string longer than its array.  A count that is negative keeps the roster empty. -/
def chargerDonnees (d : Fichier) : Option Etat :=
  match fopen_r d with
  | none => some etatVide
  | some txt =>
    if (fscanf_d (fscanf_d txt 0).2 0).1 > (MAX : Int) then none
    else
      match lireElecteurs (fscanf_d (fscanf_d txt 0).2 0).1.toNat (fscanf_d (fscanf_d txt 0).2 0).2 with
      | none => none
      | some (es, r3) =>
        if (fscanf_d r3 0).1 > (MAX : Int) then none
        else
          match lireCandidats (fscanf_d r3 0).1.toNat (fscanf_d r3 0).2 with
          | none => none
          | some (cs, _) =>
            some { electeurs := es, candidats := cs, voteOuvert := (fscanf_d txt 0).1 }

/-- An empty snapshot file, readable and writable. -/
def fichierSauvegarde : Fichier :=
  { contenu := some [], lisible := true, inscriptible := true }

/-- The election obtained on the console by registering the voter 1 named
`Jean Dupont` with the login `jean`. -/
def etatJean : Etat :=
  (ajouterElecteur etatVide fichierVide 1 "Jean Dupont".toList "jean".toList "pw".toList).1

/-- A word that `%s` writes and reads back unchanged: not empty and free of white
space. -/
def MotValide (x : CStr) : Prop :=
  x ≠ [] ∧ ∀ c ∈ x, isspace c = false

instance instDecidableMotValide (x : CStr) : Decidable (MotValide x) := by
  unfold MotValide; infer_instance

/-- An election state that the snapshot format carries: at most `MAX` voters and
candidates, names of at most 49 characters and logins of at most 64, all of them valid
words. -/
def EtatSauvegardable (s : Etat) : Prop :=
  s.electeurs.length ≤ MAX ∧ s.candidats.length ≤ MAX ∧
  (∀ e ∈ s.electeurs, MotValide e.nom ∧ e.nom.length ≤ 49 ∧
    MotValide e.username ∧ e.username.length ≤ AUTH_MAX_USERNAME) ∧
  (∀ c ∈ s.candidats, MotValide c.nom ∧ c.nom.length ≤ 49)

instance instDecidableEtatSauvegardable (s : Etat) : Decidable (EtatSauvegardable s) := by
  unfold EtatSauvegardable; infer_instance

/-- A snapshot file in which candidate 5 holds `INT_MAX` votes. -/
def fichierPlein : Fichier :=
  { contenu := some "1\n1\n1 Alice 0 0 alice\n1\n5 Bob 2147483647\n".toList,
    lisible := true, inscriptible := true }

/-- The election that `fichierPlein` holds: the vote is open, alice has not voted and
candidate 5 has `INT_MAX` votes. -/
def etatPlein : Etat :=
  { electeurs := [{ id := 1, nom := "Alice".toList, a_vote := 0, vote_blanc := 0,
                    username := "alice".toList }],
    candidats := [{ id := 5, nom := "Bob".toList, voix := 2147483647 }],
    voteOuvert := 1 }

/-! # Properties -/

/-! ## The two loops of the vote step -/

theorem boucleCandidats_cases (idC : Int) (cs : List Candidat) :
    ((∀ c ∈ cs, c.id ≠ idC) ∧ boucleCandidats idC cs = (cs, 0)) ∨
    (∃ pre c post, cs = pre ++ c :: post ∧ c.id = idC ∧ (∀ d ∈ pre, d.id ≠ idC) ∧
      boucleCandidats idC cs = (pre ++ { c with voix := wrapInt (c.voix + 1) } :: post, 1)) := by
  induction cs with
  | nil => left; simp [boucleCandidats]
  | cons c cs ih =>
    by_cases hc : c.id = idC
    · right
      exact ⟨[], c, cs, rfl, hc, by simp, by simp [boucleCandidats, hc]⟩
    · rcases ih with ⟨hall, heq⟩ | ⟨pre, d, post, hcs, hd, hpre, heq⟩
      · left
        refine ⟨?_, by simp [boucleCandidats, hc, heq]⟩
        intro x hx
        rcases List.mem_cons.mp hx with rfl | hx
        · exact hc
        · exact hall x hx
      · right
        refine ⟨c :: pre, d, post, by simp [hcs], hd, ?_, by simp [boucleCandidats, hc, heq]⟩
        intro x hx
        rcases List.mem_cons.mp hx with rfl | hx
        · exact hc
        · exact hpre x hx

theorem boucleElecteurs_cases (username : CStr) (idE idC : Int) (cands : List Candidat)
    (es : List Electeur) :
    ((∀ e ∈ es, ¬ Eligible username idE e) ∧
      boucleElecteurs username idE idC cands es = (es, cands, 0)) ∨
    (∃ pre e post, es = pre ++ e :: post ∧ Eligible username idE e ∧
      (∀ d ∈ pre, ¬ Eligible username idE d) ∧
      boucleElecteurs username idE idC cands es =
        (pre ++ marquer (boucleCandidats idC cands).2 e :: post,
         (boucleCandidats idC cands).1, 1)) := by
  induction es with
  | nil => left; simp [boucleElecteurs]
  | cons e es ih =>
    by_cases he : Eligible username idE e
    · right
      refine ⟨[], e, es, rfl, he, by simp, ?_⟩
      have he2 : e.id = idE ∧ e.username = username ∧ e.a_vote = 0 := he
      simp [boucleElecteurs, he2, marquer]
    · have he2 : ¬ (e.id = idE ∧ e.username = username ∧ e.a_vote = 0) := he
      rcases ih with ⟨hall, heq⟩ | ⟨pre, d, post, hes, hd, hpre, heq⟩
      · left
        refine ⟨?_, by simp only [boucleElecteurs, if_neg he2, heq]⟩
        intro x hx
        rcases List.mem_cons.mp hx with rfl | hx
        · exact he
        · exact hall x hx
      · right
        refine ⟨e :: pre, d, post, by simp [hes], hd, ?_,
          by simp only [boucleElecteurs, if_neg he2, heq, List.cons_append]⟩
        intro x hx
        rcases List.mem_cons.mp hx with rfl | hx
        · exact he
        · exact hpre x hx

/-- On the values of an `int`, `wrapInt` changes nothing. -/
theorem wrapInt_id (x : Int) (h1 : INT_MIN ≤ x) (h2 : x ≤ INT_MAX) : wrapInt x = x := by
  unfold INT_MIN at h1
  unfold INT_MAX at h2
  unfold wrapInt
  omega

theorem totalVoix_bump (pre post : List Candidat) (c : Candidat) :
    totalVoix (pre ++ { c with voix := c.voix + 1 } :: post) =
      totalVoix (pre ++ c :: post) + 1 := by
  simp [totalVoix, List.sum_append, List.sum_cons]
  ring

theorem voix_le_total (cs : List Candidat) (hpos : ∀ c ∈ cs, 0 ≤ c.voix) :
    ∀ c ∈ cs, c.voix ≤ totalVoix cs := by
  intro c hc
  unfold totalVoix
  apply List.single_le_sum
  · intro x hx
    obtain ⟨d, hd, rfl⟩ := List.mem_map.mp hx
    exact hpos d hd
  · exact List.mem_map_of_mem _ hc

/-- Outcome of the vote step, case by case. -/
theorem threadServeurReseau_vote_cases (s : Etat) (cmd2 username : CStr) (idE idC : Int) :
    ((cmd2 ≠ "VOTE".toList ∨ s.voteOuvert = 0 ∨ ∀ e ∈ s.electeurs, ¬ Eligible username idE e) ∧
      threadServeurReseau_vote s cmd2 username idE idC = (s, 0)) ∨
    (cmd2 = "VOTE".toList ∧ s.voteOuvert ≠ 0 ∧
      ∃ pre e post, s.electeurs = pre ++ e :: post ∧ Eligible username idE e ∧
        (∀ d ∈ pre, ¬ Eligible username idE d) ∧
        threadServeurReseau_vote s cmd2 username idE idC =
          ({ s with
              electeurs := pre ++ marquer (boucleCandidats idC s.candidats).2 e :: post,
              candidats := (boucleCandidats idC s.candidats).1 }, 1)) := by
  by_cases hc : cmd2 = "VOTE".toList ∧ s.voteOuvert ≠ 0
  · rcases boucleElecteurs_cases username idE idC s.candidats s.electeurs with
      ⟨hall, heq⟩ | ⟨pre, e, post, hes, he, hpre, heq⟩
    · left
      refine ⟨Or.inr (Or.inr hall), ?_⟩
      simp only [threadServeurReseau_vote, if_pos hc, heq]
    · right
      refine ⟨hc.1, hc.2, pre, e, post, hes, he, hpre, ?_⟩
      simp only [threadServeurReseau_vote, if_pos hc, heq]
  · left
    refine ⟨?_, by simp only [threadServeurReseau_vote, if_neg hc]⟩
    by_cases h1 : cmd2 = "VOTE".toList
    · right; left
      by_contra h2
      exact hc ⟨h1, h2⟩
    · left; exact h1

/-! ## One vote per voter -/

theorem marquer_id (t : Int) (e : Electeur) : (marquer t e).id = e.id := rfl

theorem marquer_a_vote (t : Int) (e : Electeur) : (marquer t e).a_vote = 1 := rfl

theorem vote_ids (s : Etat) (cmd2 username : CStr) (idE idC : Int) :
    (threadServeurReseau_vote s cmd2 username idE idC).1.electeurs.map (·.id) =
      s.electeurs.map (·.id) := by
  rcases threadServeurReseau_vote_cases s cmd2 username idE idC with
    ⟨_, heq⟩ | ⟨_, _, pre, e, post, hes, _, _, heq⟩
  · rw [heq]
  · rw [heq, hes]
    simp [marquer_id]

theorem vote_bloque_of_accepted (s : Etat) (cmd2 username : CStr) (idE idC v : Int)
    (hnd : (s.electeurs.map (·.id)).Nodup) (hv : idE = v)
    (hok : (threadServeurReseau_vote s cmd2 username idE idC).2 ≠ 0) :
    Bloque v (threadServeurReseau_vote s cmd2 username idE idC).1.electeurs := by
  subst hv
  rcases threadServeurReseau_vote_cases s cmd2 username idE idC with
    ⟨_, heq⟩ | ⟨_, _, pre, e, post, hes, he, _, heq⟩
  · rw [heq] at hok
    exact absurd rfl hok
  · rw [heq]
    rw [hes, List.map_append, List.map_cons] at hnd
    have hnd2 := List.nodup_middle.mp hnd
    have hnotin : e.id ∉ pre.map (·.id) ++ post.map (·.id) := (List.nodup_cons.mp hnd2).1
    intro x hx hxid
    simp only [List.mem_append, List.mem_cons] at hx
    rcases hx with hx | rfl | hx
    · exfalso
      apply hnotin
      rw [he.1, ← hxid]
      exact List.mem_append_left _ (List.mem_map_of_mem _ hx)
    · rw [marquer_a_vote]
      decide
    · exfalso
      apply hnotin
      rw [he.1, ← hxid]
      exact List.mem_append_right _ (List.mem_map_of_mem _ hx)

theorem vote_bloque_stable (v : Int) (s : Etat) (cmd2 username : CStr) (idE idC : Int)
    (hb : Bloque v s.electeurs) :
    Bloque v (threadServeurReseau_vote s cmd2 username idE idC).1.electeurs := by
  rcases threadServeurReseau_vote_cases s cmd2 username idE idC with
    ⟨_, heq⟩ | ⟨_, _, pre, e, post, hes, _, _, heq⟩
  · rw [heq]
    exact hb
  · rw [heq]
    intro x hx hxid
    simp only [List.mem_append, List.mem_cons] at hx
    rcases hx with hx | rfl | hx
    · exact hb x (by rw [hes]; simp [hx]) hxid
    · rw [marquer_a_vote]
      decide
    · exact hb x (by rw [hes]; simp [hx]) hxid

theorem vote_rejected_of_bloque (s : Etat) (cmd2 username : CStr) (idE idC : Int)
    (hb : Bloque idE s.electeurs) :
    (threadServeurReseau_vote s cmd2 username idE idC).2 = 0 := by
  rcases threadServeurReseau_vote_cases s cmd2 username idE idC with
    ⟨_, heq⟩ | ⟨_, _, pre, e, post, hes, he, _, _⟩
  · rw [heq]
  · exfalso
    exact hb e (by rw [hes]; simp) he.1 he.2.2

theorem rejouer_bloque (v : Int) (qs : List Soumission) :
    ∀ s : Etat, Bloque v s.electeurs → ∀ p ∈ rejouer s qs, p.1.idE = v → p.2 = 0 := by
  induction qs with
  | nil => intro s _ p hp; simp [rejouer] at hp
  | cons q qs ih =>
    intro s hb p hp hv
    simp only [rejouer, List.mem_cons] at hp
    rcases hp with rfl | hp
    · simp only at hv ⊢
      subst hv
      exact vote_rejected_of_bloque s _ _ _ _ hb
    · exact ih _ (vote_bloque_stable v s _ _ _ _ hb) p hp hv

theorem rejouer_accepted_le_one (v : Int) (qs : List Soumission) :
    ∀ s : Etat, (s.electeurs.map (·.id)).Nodup →
      ((rejouer s qs).filter (fun p => decide (p.1.idE = v ∧ p.2 ≠ 0))).length ≤ 1 := by
  induction qs with
  | nil => intro s _; simp [rejouer]
  | cons q qs ih =>
    intro s hnd
    have hnd2 : ((threadServeurReseau_vote s q.cmd2 q.username q.idE q.idC).1.electeurs.map
        (·.id)).Nodup := by rw [vote_ids]; exact hnd
    simp only [rejouer]
    by_cases hacc : q.idE = v ∧ (threadServeurReseau_vote s q.cmd2 q.username q.idE q.idC).2 ≠ 0
    · have hb : Bloque v (threadServeurReseau_vote s q.cmd2 q.username q.idE q.idC).1.electeurs :=
        vote_bloque_of_accepted s q.cmd2 q.username q.idE q.idC v hnd hacc.1 hacc.2
      have hrest : (rejouer (threadServeurReseau_vote s q.cmd2 q.username q.idE q.idC).1 qs).filter
          (fun p => decide (p.1.idE = v ∧ p.2 ≠ 0)) = [] := by
        rw [List.filter_eq_nil_iff]
        intro p hp
        have := rejouer_bloque v qs _ hb p hp
        simp only [decide_eq_true_eq, not_and, not_not]
        exact this
      rw [List.filter_cons_of_pos (by simpa using hacc), hrest]
      simp
    · rw [List.filter_cons_of_neg (by simpa using hacc)]
      exact ih _ hnd2

theorem rejouer_after_accepted (v : Int) (pre : List (Soumission × Int)) :
    ∀ (s : Etat) (qs : List Soumission) (q : Soumission) (ok : Int)
      (post : List (Soumission × Int)),
      (s.electeurs.map (·.id)).Nodup → rejouer s qs = pre ++ (q, ok) :: post →
      q.idE = v → ok ≠ 0 → ∀ p ∈ post, p.1.idE = v → p.2 = 0 := by
  induction pre with
  | nil =>
    intro s qs q ok post hnd heq hv hok p hp hpv
    cases qs with
    | nil => simp [rejouer] at heq
    | cons q0 qs =>
      simp only [rejouer, List.nil_append, List.cons.injEq, Prod.mk.injEq] at heq
      obtain ⟨⟨rfl, rfl⟩, rfl⟩ := heq
      have hb := vote_bloque_of_accepted s q0.cmd2 q0.username q0.idE q0.idC v hnd hv hok
      exact rejouer_bloque v qs _ hb p hp hpv
  | cons p0 pre ih =>
    intro s qs q ok post hnd heq hv hok p hp hpv
    cases qs with
    | nil => simp [rejouer] at heq
    | cons q0 qs =>
      simp only [rejouer, List.cons_append, List.cons.injEq] at heq
      have hnd2 : ((threadServeurReseau_vote s q0.cmd2 q0.username q0.idE q0.idC).1.electeurs.map
          (·.id)).Nodup := by rw [vote_ids]; exact hnd
      exact ih _ qs q ok post hnd2 heq.2 hv hok p hp hpv

/-- C1. One vote per voter: from a state whose voter ids are pairwise distinct, over any
sequence of vote submissions, at most one submission naming the voter id `v` is
accepted, and every submission naming `v` that comes after an accepted one obtains
`ok = 0`, that is the reply ERREUR. -/
theorem one_vote_per_voter (s : Etat) (hnd : (s.electeurs.map (·.id)).Nodup)
    (qs : List Soumission) (v : Int) :
    ((rejouer s qs).filter (fun p => decide (p.1.idE = v ∧ p.2 ≠ 0))).length ≤ 1 ∧
    ∀ (pre post : List (Soumission × Int)) (q : Soumission) (ok : Int),
      rejouer s qs = pre ++ (q, ok) :: post → q.idE = v → ok ≠ 0 →
      ∀ p ∈ post, p.1.idE = v → p.2 = 0 ∧ reponseVote p.2 = "ERREUR".toList := by
  refine ⟨rejouer_accepted_le_one v qs s hnd, ?_⟩
  intro pre post q ok heq hv hok p hp hpv
  have h0 := rejouer_after_accepted v pre s qs q ok post hnd heq hv hok p hp hpv
  exact ⟨h0, by rw [h0]; rfl⟩

/-! ## Acceptance rule and effect of a vote -/

theorem eq_of_same_id {es : List Electeur} (hnd : (es.map (·.id)).Nodup)
    {x y : Electeur} (hx : x ∈ es) (hy : y ∈ es) (hxy : x.id = y.id) : x = y :=
  List.inj_on_of_nodup_map hnd hx hy hxy

theorem reponseVote_zero_ne_ok : reponseVote 0 ≠ "OK".toList := by decide

theorem reponseVote_one_ne_erreur : reponseVote 1 ≠ "ERREUR".toList := by decide

/-- C3. Acceptance rule: with pairwise distinct voter ids, a VOTE submission obtains
the reply OK exactly when the vote is open, a voter with the submitted id
exists, and the voter with that id has the session login and `a_vote = 0`; the reply
is otherwise ERREUR, and then the election state is unchanged. -/
theorem acceptance_rule (s : Etat) (hnd : (s.electeurs.map (·.id)).Nodup)
    (username : CStr) (idE idC : Int) :
    (reponseVote (threadServeurReseau_vote s "VOTE".toList username idE idC).2 = "OK".toList ↔
      (s.voteOuvert ≠ 0 ∧ (∃ e ∈ s.electeurs, e.id = idE) ∧
        ∀ e ∈ s.electeurs, e.id = idE → e.username = username ∧ e.a_vote = 0)) ∧
    (reponseVote (threadServeurReseau_vote s "VOTE".toList username idE idC).2 = "ERREUR".toList →
      (threadServeurReseau_vote s "VOTE".toList username idE idC).1 = s) ∧
    (reponseVote (threadServeurReseau_vote s "VOTE".toList username idE idC).2 = "OK".toList ∨
      reponseVote (threadServeurReseau_vote s "VOTE".toList username idE idC).2 =
        "ERREUR".toList) := by
  rcases threadServeurReseau_vote_cases s "VOTE".toList username idE idC with
    ⟨hrej, heq⟩ | ⟨_, hopen, pre, e, post, hes, he, _, heq⟩
  · rw [heq]
    refine ⟨⟨fun h => absurd h reponseVote_zero_ne_ok, ?_⟩, fun _ => rfl, Or.inr rfl⟩
    rintro ⟨hopen, ⟨e, hmem, hid⟩, hall⟩
    exfalso
    rcases hrej with h | h | h
    · exact h rfl
    · exact hopen h
    · exact h e hmem ⟨hid, hall e hmem hid⟩
  · rw [heq]
    have hmem : e ∈ s.electeurs := by rw [hes]; simp
    refine ⟨⟨fun _ => ⟨hopen, ⟨e, hmem, he.1⟩, ?_⟩, fun _ => rfl⟩,
      fun h => absurd h reponseVote_one_ne_erreur, Or.inl rfl⟩
    intro x hx hxid
    have hxe : x = e := eq_of_same_id hnd hx hmem (by rw [hxid, he.1])
    rw [hxe]
    exact he.2

/-- C4. Evaluation of the vote step when id 0, announced to clients as the blank vote,
is also the id of a registered candidate: the submission `VOTE 1 0` is counted for
that candidate and the voter ends with `vote_blanc = 0`. -/
theorem vote_zero_counted_for_candidate_zero :
    threadServeurReseau_vote
      ⟨[⟨1, "Alice".toList, 0, 0, "alice".toList⟩], [⟨0, "Zero".toList, 0⟩], 1⟩
      "VOTE".toList "alice".toList 1 0 =
    (⟨[⟨1, "Alice".toList, 1, 0, "alice".toList⟩], [⟨0, "Zero".toList, 1⟩], 1⟩, 1) := by
  decide

/-- C5, counterexample. The server starts from a snapshot in which candidate 5 holds
`INT_MAX` votes; alice's vote `VOTE 1 5` is accepted and names a registered candidate,
and `voix++` leaves that candidate with `INT_MIN` votes: the total of `voix` does not
grow by one. -/
theorem counted_vote_wraps_at_int_max :
    chargerDonnees fichierPlein = some etatPlein ∧
    (threadServeurReseau_vote etatPlein "VOTE".toList "alice".toList 1 5).2 = 1 ∧
    (∃ c ∈ etatPlein.candidats, c.id = 5) ∧
    (threadServeurReseau_vote etatPlein "VOTE".toList "alice".toList 1 5).1.candidats =
      [{ id := 5, nom := "Bob".toList, voix := -2147483648 }] ∧
    totalVoix (threadServeurReseau_vote etatPlein "VOTE".toList "alice".toList 1 5).1.candidats ≠
      totalVoix etatPlein.candidats + 1 := by
  decide

/-- C5, amended. Effect of a counted vote: when a submission is accepted, its candidate
id is registered and the first candidate with that id holds in `voix` an `int` below
`INT_MAX`, the total of `voix` grows by exactly one, the increment falls on the first
candidate with that id while all other candidate records are kept, the selected voter
(right id, session login, `a_vote = 0`) ends with `a_vote = 1` and `vote_blanc = 0`,
and the other voter records and `voteOuvert` are unchanged. -/
theorem counted_vote_effect (s : Etat) (cmd2 username : CStr) (idE idC : Int)
    (hok : (threadServeurReseau_vote s cmd2 username idE idC).2 ≠ 0)
    (hc : ∃ c ∈ s.candidats, c.id = idC)
    (hv : ∀ pre c post, s.candidats = pre ++ c :: post → c.id = idC →
      (∀ d ∈ pre, d.id ≠ idC) → INT_MIN ≤ c.voix ∧ c.voix < INT_MAX) :
    totalVoix (threadServeurReseau_vote s cmd2 username idE idC).1.candidats =
      totalVoix s.candidats + 1 ∧
    (∃ pre c post, s.candidats = pre ++ c :: post ∧ c.id = idC ∧
      (∀ d ∈ pre, d.id ≠ idC) ∧
      (threadServeurReseau_vote s cmd2 username idE idC).1.candidats =
        pre ++ { c with voix := c.voix + 1 } :: post) ∧
    (∃ pre e post, s.electeurs = pre ++ e :: post ∧
      e.id = idE ∧ e.username = username ∧ e.a_vote = 0 ∧
      (threadServeurReseau_vote s cmd2 username idE idC).1.electeurs =
        pre ++ { e with a_vote := 1, vote_blanc := 0 } :: post) ∧
    (threadServeurReseau_vote s cmd2 username idE idC).1.voteOuvert = s.voteOuvert ∧
    reponseVote (threadServeurReseau_vote s cmd2 username idE idC).2 = "OK".toList := by
  rcases threadServeurReseau_vote_cases s cmd2 username idE idC with
    ⟨_, heq⟩ | ⟨_, _, pre, e, post, hes, he, _, heq⟩
  · rw [heq] at hok
    exact absurd rfl hok
  · rcases boucleCandidats_cases idC s.candidats with
      ⟨hnone, _⟩ | ⟨cpre, c, cpost, hcs, hcid, hcpre, hbc⟩
    · obtain ⟨c, hcm, hcid⟩ := hc
      exact absurd hcid (hnone c hcm)
    · have hw : wrapInt (c.voix + 1) = c.voix + 1 := by
        obtain ⟨hlo, hhi⟩ := hv cpre c cpost hcs hcid hcpre
        apply wrapInt_id
        · omega
        · omega
      rw [heq, hbc, hw]
      refine ⟨?_, ⟨cpre, c, cpost, hcs, hcid, hcpre, rfl⟩,
        ⟨pre, e, post, hes, he.1, he.2.1, he.2.2, ?_⟩, rfl, rfl⟩
      · simp only
        rw [totalVoix_bump, ← hcs]
      · simp [marquer]

/-! ## Tally invariant -/

theorem ajouterElecteur_etat (s : Etat) (f : Fichier) (id : Int) (nom username password : CStr) :
    (ajouterElecteur s f id nom username password).1 = s ∨
    (s.electeurs.length < MAX ∧
      (ajouterElecteur s f id nom username password).1 =
        { s with electeurs := s.electeurs ++
            [{ id := id, nom := nom, a_vote := 0, vote_blanc := 0,
               username := strncpy AUTH_MAX_USERNAME username }] }) := by
  unfold ajouterElecteur
  split_ifs with h1 h2 h3 h4
  · left; rfl
  · left; rfl
  · left; rfl
  · left; rfl
  · right
    exact ⟨Nat.lt_of_not_ge h1, rfl⟩

theorem inv_etatVide : Inv etatVide := by
  refine ⟨by simp [etatVide, totalVoix, nbBlancs, nbVotants], ?_, ?_, ?_⟩
  · intro e he; simp [etatVide] at he
  · intro c hc; simp [etatVide] at hc
  · simp [etatVide]

theorem inv_ajouterElecteur (s : Etat) (f : Fichier) (id : Int) (nom username password : CStr)
    (h : Inv s) : Inv (ajouterElecteur s f id nom username password).1 := by
  rcases ajouterElecteur_etat s f id nom username password with heq | ⟨hlen, heq⟩
  · rw [heq]; exact h
  · rw [heq]
    obtain ⟨h1, h2, h3, _⟩ := h
    refine ⟨?_, ?_, h3, ?_⟩
    · simpa [nbBlancs, nbVotants, List.countP_append] using h1
    · intro e he
      simp only [List.mem_append, List.mem_singleton] at he
      rcases he with he | rfl
      · exact h2 e he
      · intro _; rfl
    · simp only [List.length_append, List.length_singleton]
      exact hlen

theorem inv_ajouterCandidat (s : Etat) (id : Int) (nom : CStr) (h : Inv s) :
    Inv (ajouterCandidat s id nom) := by
  unfold ajouterCandidat
  split_ifs with hfull
  · exact h
  · obtain ⟨h1, h2, h3, h4⟩ := h
    refine ⟨?_, h2, ?_, h4⟩
    · simpa [totalVoix, List.sum_append] using h1
    · intro c hc
      simp only [List.mem_append, List.mem_singleton] at hc
      rcases hc with hc | rfl
      · exact h3 c hc
      · exact le_refl _

theorem countP_middle (p : Electeur → Bool) (pre post : List Electeur) (e : Electeur) :
    (pre ++ e :: post).countP p = pre.countP p + post.countP p + (if p e then 1 else 0) := by
  rw [List.countP_append, List.countP_cons]
  omega

theorem inv_vote (s : Etat) (cmd2 username : CStr) (idE idC : Int) (h : Inv s) :
    Inv (threadServeurReseau_vote s cmd2 username idE idC).1 := by
  rcases threadServeurReseau_vote_cases s cmd2 username idE idC with
    ⟨_, heq⟩ | ⟨_, _, pre, e, post, hes, he, _, heq⟩
  · rw [heq]; exact h
  · obtain ⟨h1, h2, h3, h4⟩ := h
    have hmem : e ∈ s.electeurs := by rw [hes]; simp
    have hb0 : e.vote_blanc = 0 := h2 e hmem he.2.2
    have ha0 : e.a_vote = 0 := he.2.2
    have hborne : ∀ c ∈ s.candidats, c.voix ≤ (MAX : Int) := by
      intro c hc
      have hle := voix_le_total _ h3 c hc
      have hv : nbVotants s.electeurs ≤ s.electeurs.length := List.countP_le_length _
      have h4i : (s.electeurs.length : Int) ≤ (MAX : Int) := by exact_mod_cast h4
      have hvi : (nbVotants s.electeurs : Int) ≤ (s.electeurs.length : Int) := by
        exact_mod_cast hv
      have hb : (0 : Int) ≤ (nbBlancs s.electeurs : Int) := Int.natCast_nonneg _
      omega
    rw [hes] at h1
    simp only [nbBlancs, nbVotants, countP_middle, hb0, ha0] at h1
    rw [heq]
    rcases boucleCandidats_cases idC s.candidats with
      ⟨_, hbc⟩ | ⟨cpre, c, cpost, hcs, _, _, hbc⟩
    · rw [hbc]
      refine ⟨?_, ?_, h3, ?_⟩
      · simp only [nbBlancs, nbVotants, countP_middle, marquer]
        simp at h1 ⊢
        omega
      · intro x hx hx0
        simp only [List.mem_append, List.mem_cons] at hx
        rcases hx with hx | rfl | hx
        · exact h2 x (by rw [hes]; simp [hx]) hx0
        · simp [marquer] at hx0
        · exact h2 x (by rw [hes]; simp [hx]) hx0
      · rw [hes] at h4
        simpa using h4
    · have hcm : c ∈ s.candidats := by rw [hcs]; simp
      have hw : wrapInt (c.voix + 1) = c.voix + 1 := by
        have h0 := h3 c hcm
        have h100 := hborne c hcm
        apply wrapInt_id
        · unfold INT_MIN; omega
        · unfold INT_MAX; unfold MAX at h100; omega
      rw [hbc, hw]
      refine ⟨?_, ?_, ?_, ?_⟩
      · simp only [nbBlancs, nbVotants, countP_middle, marquer]
        rw [totalVoix_bump, ← hcs]
        simp at h1 ⊢
        omega
      · intro x hx hx0
        simp only [List.mem_append, List.mem_cons] at hx
        rcases hx with hx | rfl | hx
        · exact h2 x (by rw [hes]; simp [hx]) hx0
        · simp [marquer] at hx0
        · exact h2 x (by rw [hes]; simp [hx]) hx0
      · intro x hx
        simp only [List.mem_append, List.mem_cons] at hx
        rcases hx with hx | rfl | hx
        · exact h3 x (by rw [hcs]; simp [hx])
        · have := h3 c (by rw [hcs]; simp)
          simp only
          omega
        · exact h3 x (by rw [hcs]; simp [hx])
      · rw [hes] at h4
        simpa using h4

theorem inv_executer (w : Etat × Fichier) (a : Action) (h : Inv w.1) : Inv (executer w a).1 := by
  cases a with
  | ajouterElecteur id nom username password => exact inv_ajouterElecteur _ _ _ _ _ _ h
  | ajouterCandidat id nom => exact inv_ajouterCandidat _ _ _ h
  | ouvrirVote => exact h
  | fermerVote => exact h
  | vote q => exact inv_vote _ _ _ _ _ h

theorem inv_executerTout (as : List Action) :
    ∀ w : Etat × Fichier, Inv w.1 → Inv (executerTout w as).1 := by
  induction as with
  | nil => intro w h; exact h
  | cons a as ih =>
    intro w h
    exact ih (executer w a) (inv_executer w a h)

/-- C2. Tally invariant: in every state reached from the empty election (with any users
file) by voter registrations, candidate registrations, openings, closings and vote
submissions, the sum of `voix` plus the number of voters with `vote_blanc = 1` is the
number of voters with `a_vote = 1`; every `voix` stays between 0 and `MAX`. -/
theorem tally_invariant (f : Fichier) (as : List Action) :
    totalVoix (executerTout (etatVide, f) as).1.candidats +
        (nbBlancs (executerTout (etatVide, f) as).1.electeurs : Int) =
      (nbVotants (executerTout (etatVide, f) as).1.electeurs : Int) ∧
    ∀ c ∈ (executerTout (etatVide, f) as).1.candidats, 0 ≤ c.voix ∧ c.voix ≤ (MAX : Int) := by
  obtain ⟨h1, _, h3, h4⟩ := inv_executerTout as (etatVide, f) inv_etatVide
  refine ⟨h1, fun c hc => ⟨h3 c hc, ?_⟩⟩
  have hle := voix_le_total _ h3 c hc
  have hv : nbVotants (executerTout (etatVide, f) as).1.electeurs ≤
      (executerTout (etatVide, f) as).1.electeurs.length := List.countP_le_length _
  have h4i : ((executerTout (etatVide, f) as).1.electeurs.length : Int) ≤ (MAX : Int) := by
    exact_mod_cast h4
  have hvi : (nbVotants (executerTout (etatVide, f) as).1.electeurs : Int) ≤
      ((executerTout (etatVide, f) as).1.electeurs.length : Int) := by exact_mod_cast hv
  have hb : (0 : Int) ≤ (nbBlancs (executerTout (etatVide, f) as).1.electeurs : Int) :=
    Int.natCast_nonneg _
  omega

/-! ## Reading the ledger: status and list -/

theorem auth_list_users_loop_status (fuel : Nat) :
    ∀ (txt : List Char) (list : List AuthUser) (st : AuthStatus) (l : List AuthUser),
      auth_list_users_loop fuel txt list = some (st, l) →
      st = AUTH_OK ∨ (st = AUTH_ERR_FORMAT ∧ l = []) := by
  induction fuel with
  | zero => intro txt list st l h; simp [auth_list_users_loop] at h
  | succ n ih =>
    intro txt list st l h
    cases txt with
    | nil =>
      simp only [auth_list_users_loop, Option.some.injEq, Prod.mk.injEq] at h
      exact Or.inl h.1.symm
    | cons c r =>
      simp only [auth_list_users_loop] at h
      split at h
      · simp only [Option.some.injEq, Prod.mk.injEq] at h
        exact Or.inr ⟨h.1.symm, h.2.symm⟩
      · exact ih _ _ _ _ h

/-- When `auth_list_users` does not return `AUTH_OK`, it hands back no user. -/
theorem auth_list_users_fail (f : Fichier) (h : (auth_list_users f).1 ≠ AUTH_OK) :
    (auth_list_users f).2 = [] := by
  unfold auth_list_users at h ⊢
  cases hf : fopen_r f with
  | none => rfl
  | some txt =>
    simp only [hf] at h ⊢
    cases hl : auth_list_users_loop (txt.length + 1) txt [] with
    | none => rfl
    | some r =>
      obtain ⟨st, l⟩ := r
      simp only [hl, Option.getD_some] at h ⊢
      rcases auth_list_users_loop_status _ _ _ _ _ hl with h1 | ⟨_, h2⟩
      · exact absurd h1 h
      · exact h2

theorem auth_list_users_ok_of_mem (f : Fichier) (u : AuthUser) (h : u ∈ (auth_list_users f).2) :
    (auth_list_users f).1 = AUTH_OK := by
  by_contra hne
  rw [auth_list_users_fail f hne] at h
  simp at h

/-! ## Authentication -/

theorem auth_authenticate_loop_find (username password : CStr) (out_user : AuthUser)
    (users : List AuthUser) :
    auth_authenticate_loop username password out_user users =
      match users.find? (fun v => decide (v.username = username)) with
      | none => (AUTH_ERR_NOTFOUND, out_user)
      | some u =>
        if u.active = 0 then (AUTH_ERR_INVALID, out_user)
        else if u.password = password then (AUTH_OK, u)
        else (AUTH_ERR_INVALID, out_user) := by
  induction users with
  | nil => rfl
  | cons u us ih =>
    by_cases hu : u.username = username
    · simp [auth_authenticate_loop, List.find?_cons, hu]
    · simp [auth_authenticate_loop, List.find?_cons, hu, ih]

/-- C6. An inactive account is never authenticated: when the account that the ledger
lists for the login (the first record with that login) has `active = 0`, the result is
`AUTH_ERR_INVALID` for every password and `*out_user` keeps its content; and whenever
the result is `AUTH_OK` the account copied out is an active one. -/
theorem inactive_never_authenticated (f : Fichier) (username password : CStr)
    (out_user : AuthUser) :
    (∀ u, (auth_list_users f).2.find? (fun v => decide (v.username = username)) = some u →
      u.active = 0 →
      auth_authenticate f username password out_user = (AUTH_ERR_INVALID, out_user)) ∧
    ((auth_authenticate f username password out_user).1 = AUTH_OK →
      (auth_authenticate f username password out_user).2.active ≠ 0 ∧
      (auth_authenticate f username password out_user).2 ∈ (auth_list_users f).2) := by
  constructor
  · intro u hfind hina
    have hok : (auth_list_users f).1 = AUTH_OK :=
      auth_list_users_ok_of_mem f u (List.mem_of_find?_eq_some hfind)
    unfold auth_authenticate
    rw [if_neg (not_not.mpr hok), auth_authenticate_loop_find, hfind]
    simp [hina]
  · unfold auth_authenticate
    split_ifs with hst
    · intro h
      exact absurd h hst
    · rw [auth_authenticate_loop_find]
      cases hfind : (auth_list_users f).2.find? (fun v => decide (v.username = username)) with
      | none => intro h; simp at h
      | some u =>
        simp only
        split_ifs with h1 h2
        · intro h; simp at h
        · intro _
          exact ⟨h1, List.mem_of_find?_eq_some hfind⟩
        · intro h; simp at h

theorem find_username_of_nodup {L : List AuthUser} (hnd : (L.map (·.username)).Nodup)
    {u : AuthUser} (hu : u ∈ L) :
    L.find? (fun v => decide (v.username = u.username)) = some u := by
  cases hfind : L.find? (fun v => decide (v.username = u.username)) with
  | none =>
    have := List.find?_eq_none.mp hfind u hu
    simp at this
  | some w =>
    have hw : w ∈ L := List.mem_of_find?_eq_some hfind
    have hwn : w.username = u.username := by
      have := List.find?_some hfind
      simpa using this
    rw [List.inj_on_of_nodup_map hnd hw hu hwn]

/-- C7. Result of `auth_authenticate` on a ledger that reads as the accounts `L` with
at most one account per login: `AUTH_ERR_NOTFOUND` exactly when no account has the
login; `AUTH_OK` exactly when an account with the login exists, is active and stores
exactly the supplied password; and on `AUTH_OK` the user copied out is that account. -/
theorem authenticate_result (f : Fichier) (L : List AuthUser) (username password : CStr)
    (out_user : AuthUser) (hL : auth_list_users f = (AUTH_OK, L))
    (hnd : (L.map (·.username)).Nodup) :
    ((auth_authenticate f username password out_user).1 = AUTH_ERR_NOTFOUND ↔
      ∀ u ∈ L, u.username ≠ username) ∧
    ((auth_authenticate f username password out_user).1 = AUTH_OK ↔
      ∃ u ∈ L, u.username = username ∧ u.active ≠ 0 ∧ u.password = password) ∧
    ((auth_authenticate f username password out_user).1 = AUTH_OK →
      ∀ u ∈ L, u.username = username →
        (auth_authenticate f username password out_user).2 = u) := by
  have hauth : auth_authenticate f username password out_user =
      auth_authenticate_loop username password out_user L := by
    unfold auth_authenticate
    rw [hL]
    simp
  rw [hauth, auth_authenticate_loop_find]
  cases hfind : L.find? (fun v => decide (v.username = username)) with
  | none =>
    have hnone := List.find?_eq_none.mp hfind
    simp only [decide_eq_true_eq] at hnone
    refine ⟨⟨fun _ => hnone, fun _ => rfl⟩, ⟨fun h => by simp at h, ?_⟩, fun h => by simp at h⟩
    rintro ⟨u, hu, hun, _⟩
    exact absurd hun (hnone u hu)
  | some w =>
    have hw : w ∈ L := List.mem_of_find?_eq_some hfind
    have hwn : w.username = username := by
      have := List.find?_some hfind
      simpa using this
    have huniq : ∀ u ∈ L, u.username = username → u = w := fun u hu hun =>
      List.inj_on_of_nodup_map hnd hu hw (by rw [hun, hwn])
    simp only
    refine ⟨⟨?_, fun h => absurd hwn (h w hw)⟩, ⟨?_, ?_⟩, ?_⟩
    · intro h
      split_ifs at h
    · intro h
      split_ifs at h with h1 h2
      exact ⟨w, hw, hwn, h1, h2⟩
    · rintro ⟨u, hu, hun, hact, hpw⟩
      rw [huniq u hu hun] at hact hpw
      simp [hact, hpw]
    · intro h u hu hun
      rw [huniq u hu hun]
      split_ifs at h with h1 h2
      simp [h1, h2]

/-! ## Password change -/

theorem chercherIndex_find (username : CStr) (users : List AuthUser) :
    (chercherIndex username users).map (·.2) =
      users.find? (fun v => decide (v.username = username)) := by
  induction users with
  | nil => rfl
  | cons u us ih =>
    by_cases hu : u.username = username
    · simp [chercherIndex, List.find?_cons, hu]
    · simp only [chercherIndex, if_neg hu, List.find?_cons, decide_eq_true_eq]
      rw [← ih]
      cases chercherIndex username us <;> simp [hu]

theorem chercherIndex_none (username : CStr) (users : List AuthUser)
    (h : ∀ u ∈ users, u.username ≠ username) : chercherIndex username users = none := by
  have h1 := chercherIndex_find username users
  have h2 : users.find? (fun v => decide (v.username = username)) = none := by
    rw [List.find?_eq_none]
    intro u hu
    simpa using h u hu
  rw [h2] at h1
  cases hc : chercherIndex username users with
  | none => rfl
  | some p => rw [hc] at h1; simp at h1

theorem chercherIndex_some (username : CStr) (users : List AuthUser) (u : AuthUser)
    (h : users.find? (fun v => decide (v.username = username)) = some u) :
    ∃ i, chercherIndex username users = some (i, u) := by
  have h1 := chercherIndex_find username users
  rw [h] at h1
  cases hc : chercherIndex username users with
  | none => rw [hc] at h1; simp at h1
  | some p =>
    rw [hc] at h1
    simp only [Option.map_some', Option.some.injEq] at h1
    exact ⟨p.1, by rw [← h1]⟩

theorem find_some_of_mem (username : CStr) (users : List AuthUser)
    (h : ∃ u ∈ users, u.username = username) :
    ∃ w, users.find? (fun v => decide (v.username = username)) = some w := by
  cases hf : users.find? (fun v => decide (v.username = username)) with
  | some w => exact ⟨w, rfl⟩
  | none =>
    obtain ⟨u, hu, hun⟩ := h
    have := List.find?_eq_none.mp hf u hu
    simp [hun] at this

/-- C8. Old-password check of `auth_change_password` on a ledger that reads correctly:
with the NULL old password the call returns `AUTH_OK` for a listed login whenever the
file can be opened for writing, whatever password is stored; with an old password that
differs from the stored one (the password of the first record with that login) it
returns `AUTH_ERR_INVALID` and leaves the file as it was; for a login that is not
listed it returns `AUTH_ERR_NOTFOUND` and leaves the file as it was. -/
theorem change_password_check (f : Fichier) (username new_password : CStr)
    (hok : (auth_list_users f).1 = AUTH_OK) :
    ((∃ u ∈ (auth_list_users f).2, u.username = username) → f.inscriptible = true →
      (auth_change_password f username none new_password).1 = AUTH_OK) ∧
    (∀ (old : CStr) (u : AuthUser),
      (auth_list_users f).2.find? (fun v => decide (v.username = username)) = some u →
      old ≠ u.password →
      auth_change_password f username (some old) new_password = (AUTH_ERR_INVALID, f)) ∧
    ((∀ u ∈ (auth_list_users f).2, u.username ≠ username) →
      ∀ old : Option CStr,
        auth_change_password f username old new_password = (AUTH_ERR_NOTFOUND, f)) := by
  refine ⟨?_, ?_, ?_⟩
  · intro hex hw
    obtain ⟨w, hfind⟩ := find_some_of_mem username _ hex
    obtain ⟨i, hidx⟩ := chercherIndex_some username _ w hfind
    unfold auth_change_password
    rw [if_neg (not_not.mpr hok), hidx]
    simp [auth_save_all, fopen_w, hw]
  · intro old u hfind hne
    obtain ⟨i, hidx⟩ := chercherIndex_some username _ u hfind
    unfold auth_change_password
    rw [if_neg (not_not.mpr hok), hidx]
    simp [hne]
  · intro hnone old
    unfold auth_change_password
    rw [if_neg (not_not.mpr hok), chercherIndex_none username _ hnone]

/-! ## Registration -/

theorem auth_init_of_readable (f : Fichier) (txt : List Char) (h : fopen_r f = some txt) :
    auth_init f = (AUTH_OK, f) := by
  simp [auth_init, h]

theorem fopen_r_of_mem (f : Fichier) (u : AuthUser) (h : u ∈ (auth_list_users f).2) :
    ∃ txt, fopen_r f = some txt := by
  cases hf : fopen_r f with
  | some txt => exact ⟨txt, rfl⟩
  | none => simp [auth_list_users, hf] at h

/-- After `auth_init`, the file lists what it listed before, or nothing. -/
theorem auth_list_users_init (f : Fichier) :
    (auth_init f).2 = f ∨ (auth_list_users (auth_init f).2).2 = [] := by
  cases hf : fopen_r f with
  | some txt => left; rw [auth_init_of_readable f txt hf]
  | none =>
    cases hw : f.inscriptible with
    | false => left; simp [auth_init, hf, fopen_w, hw]
    | true =>
      right
      cases hl : f.lisible with
      | false => simp [auth_init, hf, fopen_w, hw, auth_list_users, fopen_r, hl]
      | true =>
        have hc : f.contenu = none := by simpa [fopen_r, hl] using hf
        simp [auth_init, fopen_w, hw, auth_list_users, fopen_r, hl, hc, auth_list_users_loop]

theorem auth_init_status (f : Fichier) :
    (auth_init f).1 = AUTH_OK ∨ (auth_init f).1 = AUTH_ERR_IO := by
  unfold auth_init
  cases fopen_r f with
  | some txt => left; rfl
  | none =>
    cases fopen_w f [] with
    | none => right; rfl
    | some g => left; rfl

theorem auth_list_users_status (f : Fichier) :
    (auth_list_users f).1 = AUTH_OK ∨ (auth_list_users f).1 = AUTH_ERR_IO ∨
      (auth_list_users f).1 = AUTH_ERR_FORMAT := by
  unfold auth_list_users
  cases fopen_r f with
  | none => right; left; rfl
  | some txt =>
    simp only
    cases hl : auth_list_users_loop (txt.length + 1) txt [] with
    | none => right; left; rfl
    | some r =>
      obtain ⟨st, l⟩ := r
      rcases auth_list_users_loop_status _ _ _ _ _ hl with h1 | ⟨h1, _⟩
      · left; exact h1
      · right; right; exact h1

/-- C9. Duplicate registration: when the ledger lists an account whose login is exactly
the supplied one, `auth_register_user` returns `AUTH_ERR_EXISTS` and the file is left
as it was; when no listed login is exactly the supplied one (for instance when they
differ in letter case) the result is not `AUTH_ERR_EXISTS`. -/
theorem duplicate_registration_refused (f : Fichier) (username password role : CStr) :
    ((∃ u ∈ (auth_list_users f).2, u.username = username) →
      auth_register_user f username password role = (AUTH_ERR_EXISTS, f)) ∧
    ((∀ u ∈ (auth_list_users f).2, u.username ≠ username) →
      (auth_register_user f username password role).1 ≠ AUTH_ERR_EXISTS) := by
  constructor
  · rintro ⟨u, hu, hun⟩
    obtain ⟨txt, htxt⟩ := fopen_r_of_mem f u hu
    have hok := auth_list_users_ok_of_mem f u hu
    have hex : ∃ u ∈ (auth_list_users f).2, u.username = username := ⟨u, hu, hun⟩
    unfold auth_register_user
    rw [auth_init_of_readable f txt htxt]
    simp only [ne_eq, not_true_eq_false, if_false, hok, false_and]
    rw [if_pos hex]
  · intro hnone
    unfold auth_register_user
    split_ifs with h1 h2 h3
    · rcases auth_init_status f with h | h <;> rw [h] <;> decide
    · rcases auth_list_users_status (auth_init f).2 with h | h | h <;> rw [h] <;> decide
    · exfalso
      rcases auth_list_users_init f with hinit | hempty
      · rw [hinit] at h3
        obtain ⟨u, hu, hun⟩ := h3
        exact hnone u hu hun
      · rw [hempty] at h3
        simp at h3
    · unfold auth_save_all
      cases fopen_w (auth_init f).2 _ <;> simp

/-! ## Record format: printing then reading -/

theorem fgets_line (body rest : List Char) (hnl : ∀ c ∈ body, c ≠ '\n') :
    ∀ n, body.length < n → fgets n (body ++ '\n' :: rest) = (body ++ ['\n'], rest) := by
  induction body with
  | nil =>
    intro n hn
    cases n with
    | zero => omega
    | succ n => simp [fgets]
  | cons c body ih =>
    intro n hn
    cases n with
    | zero => omega
    | succ n =>
      have hc : c ≠ '\n' := hnl c (by simp)
      have hb : ∀ d ∈ body, d ≠ '\n' := fun d hd => hnl d (by simp [hd])
      have hlen : body.length < n := by simpa using hn
      simp [fgets, hc, ih hb n hlen]

theorem cstr_self (l : List Char) (h : ∀ c ∈ l, c ≠ '\x00') : cstr l = l := by
  unfold cstr
  rw [List.takeWhile_eq_self_iff]
  intro c hc
  simpa using h c hc

theorem auth_chomp_line (body : List Char) (d : Char) (hd : d ≠ '\n' ∧ d ≠ '\r') :
    auth_chomp ((body ++ [d]) ++ ['\n']) = body ++ [d] := by
  unfold auth_chomp
  simp [List.getLast?_concat, List.dropLast_concat, hd.1, hd.2]

theorem strtok_skip (x : CStr) (hne : x ≠ []) (hx : ∀ c ∈ x, c ≠ ';') (rest : List Char) :
    (x ++ rest).dropWhile (fun c => decide (c = ';')) = x ++ rest := by
  cases x with
  | nil => exact absurd rfl hne
  | cons a x =>
    have ha : a ≠ ';' := hx a (by simp)
    simp [List.dropWhile_cons, ha]

theorem strtok_field (x : CStr) (hne : x ≠ []) (hx : ∀ c ∈ x, c ≠ ';') (rest : List Char) :
    strtok (x ++ ';' :: rest) = some (x, rest) := by
  unfold strtok
  rw [strtok_skip x hne hx]
  have htake : (x ++ ';' :: rest).takeWhile (fun c => decide (c ≠ ';')) = x := by
    rw [List.takeWhile_append_of_pos (fun c hc => by simpa using hx c hc)]
    simp
  have hdrop : (x ++ ';' :: rest).dropWhile (fun c => decide (c ≠ ';')) = ';' :: rest := by
    rw [List.dropWhile_append_of_pos (fun c hc => by simpa using hx c hc)]
    simp
  cases hxr : x ++ ';' :: rest with
  | nil => simp at hxr
  | cons a r =>
    simp only
    rw [← hxr, htake, hdrop]
    rfl

theorem strtok_last (x : CStr) (hne : x ≠ []) (hx : ∀ c ∈ x, c ≠ ';') :
    strtok x = some (x, []) := by
  unfold strtok
  have h0 := strtok_skip x hne hx []
  rw [List.append_nil] at h0
  rw [h0]
  have htake : x.takeWhile (fun c => decide (c ≠ ';')) = x := by
    rw [List.takeWhile_eq_self_iff]
    intro c hc
    simpa using hx c hc
  have hdrop : x.dropWhile (fun c => decide (c ≠ ';')) = [] := by
    rw [List.dropWhile_eq_nil_iff]
    intro c hc
    simpa using hx c hc
  cases hxr : x with
  | nil => exact absurd hxr hne
  | cons a r =>
    simp only
    rw [← hxr, htake, hdrop]
    rfl

theorem atoi_one : atoi ['1'] = 1 := by decide

theorem atoi_zero : atoi ['0'] = 0 := by decide

theorem auth_fprint_user_shape (u : AuthUser) :
    auth_fprint_user u =
      ((u.username ++ ';' :: (u.password ++ ';' :: (u.role ++ [';']))) ++
        [if u.active ≠ 0 then '1' else '0']) ++ ['\n'] := by
  simp [auth_fprint_user]

/-- Reading back the line printed for a valid record gives the record. -/
theorem auth_parse_line_fprint (u : AuthUser) (h : EnregistrementValide u) :
    auth_parse_line (auth_fprint_user u) = .ok u := by
  obtain ⟨⟨hu1, hu2⟩, hul, ⟨hp1, hp2⟩, hpl, ⟨hr1, hr2⟩, hrl, hact⟩ := h
  have ha : (if u.active ≠ 0 then '1' else '0') ≠ '\n' ∧
      (if u.active ≠ 0 then '1' else '0') ≠ '\r' := by
    split_ifs <;> decide
  have hflat : (u.username ++ ';' :: (u.password ++ ';' :: (u.role ++ [';']))) ++
      [if u.active ≠ 0 then '1' else '0'] =
      u.username ++ ';' :: (u.password ++ ';' :: (u.role ++ ';' ::
        [if u.active ≠ 0 then '1' else '0'])) := by simp
  unfold auth_parse_line
  rw [auth_fprint_user_shape, auth_chomp_line _ _ ha, hflat,
    strtok_field u.username hu1 (fun c hc => (hu2 c hc).1)]
  simp only
  rw [strtok_field u.password hp1 (fun c hc => (hp2 c hc).1)]
  simp only
  rw [strtok_field u.role hr1 (fun c hc => (hr2 c hc).1)]
  simp only
  rw [strtok_last [if u.active ≠ 0 then '1' else '0'] (by simp)
    (by intro c hc; rw [List.mem_singleton] at hc; rw [hc]; split_ifs <;> decide)]
  simp only [strncpy]
  rw [List.take_of_length_le hul, List.take_of_length_le hpl, List.take_of_length_le hrl]
  rcases hact with h0 | h1
  · have : u = { username := u.username, password := u.password, role := u.role, active := 0 } := by
      rw [← h0]
    rw [h0]
    simp only [ne_eq, not_true_eq_false, if_false, atoi_zero]
    rw [this]
  · have : u = { username := u.username, password := u.password, role := u.role, active := 1 } := by
      rw [← h1]
    rw [h1]
    simp only [ne_eq, one_ne_zero, not_false_eq_true, if_true, atoi_one]
    rw [this]

theorem auth_fprint_user_no_nul (u : AuthUser) (h : EnregistrementValide u) :
    ∀ c ∈ auth_fprint_user u, c ≠ '\x00' := by
  obtain ⟨⟨_, hu2⟩, _, ⟨_, hp2⟩, _, ⟨_, hr2⟩, _, _⟩ := h
  intro c hc
  simp only [auth_fprint_user, List.mem_append, List.mem_cons, List.mem_singleton,
    List.not_mem_nil, or_false] at hc
  rcases hc with hc | rfl | hc | rfl | hc | rfl | rfl | rfl
  · exact (hu2 c hc).2.2
  · decide
  · exact (hp2 c hc).2.2
  · decide
  · exact (hr2 c hc).2.2
  · decide
  · split_ifs <;> decide
  · decide

theorem auth_fprint_user_fgets (u : AuthUser) (h : EnregistrementValide u) (rest : List Char) :
    fgets (AUTH_MAX_LINE - 1) (auth_fprint_user u ++ rest) = (auth_fprint_user u, rest) := by
  obtain ⟨⟨_, hu2⟩, hul, ⟨_, hp2⟩, hpl, ⟨_, hr2⟩, hrl, _⟩ := h
  have hshape := auth_fprint_user_shape u
  rw [hshape, List.append_assoc _ ['\n'] rest]
  apply fgets_line
  · intro c hc
    simp only [List.mem_append, List.mem_cons, List.mem_singleton, List.not_mem_nil,
      or_false] at hc
    rcases hc with (hc | rfl | hc | rfl | hc | rfl) | rfl
    · exact (hu2 c hc).2.1
    · decide
    · exact (hp2 c hc).2.1
    · decide
    · exact (hr2 c hc).2.1
    · decide
    · split_ifs <;> decide
  · simp only [List.length_append, List.length_cons, List.length_singleton, List.length_nil,
      AUTH_MAX_LINE]
    simp only [AUTH_MAX_USERNAME, AUTH_MAX_PASSWORD, AUTH_MAX_ROLE] at hul hpl hrl
    omega

theorem auth_fprint_user_ne_nil (u : AuthUser) : auth_fprint_user u ≠ [] := by
  simp [auth_fprint_user]

/-! ## The reading loop -/

theorem fgets_rest_length : ∀ (n : Nat) (txt : List Char), (fgets n txt).2.length ≤ txt.length := by
  intro n
  induction n with
  | zero => intro txt; simp [fgets]
  | succ n ih =>
    intro txt
    cases txt with
    | nil => simp [fgets]
    | cons c r =>
      by_cases hc : c = '\n'
      · simp [fgets, hc]
      · simp only [fgets, if_neg hc, List.length_cons]
        exact Nat.le_succ_of_le (ih r)

theorem fgets_rest_lt (n : Nat) (c : Char) (r : List Char) :
    (fgets (n + 1) (c :: r)).2.length < (c :: r).length := by
  by_cases hc : c = '\n'
  · simp [fgets, hc]
  · simp only [fgets, if_neg hc, List.length_cons]
    exact Nat.lt_succ_of_le (fgets_rest_length n r)

/-- The loop of `auth_list_users` terminates: with more iterations allowed than there
are characters to read, it delivers a result. -/
theorem auth_list_users_loop_total (fuel : Nat) :
    ∀ (txt : List Char) (list : List AuthUser), txt.length < fuel →
      ∃ r, auth_list_users_loop fuel txt list = some r := by
  induction fuel with
  | zero => intro txt list h; omega
  | succ n ih =>
    intro txt list h
    cases txt with
    | nil => exact ⟨_, rfl⟩
    | cons c r =>
      simp only [auth_list_users_loop]
      split
      · exact ⟨_, rfl⟩
      · apply ih
        have := fgets_rest_lt (AUTH_MAX_LINE - 1 - 1) c r
        have h511 : AUTH_MAX_LINE - 1 - 1 + 1 = AUTH_MAX_LINE - 1 := by decide
        rw [h511] at this
        simp only [List.length_cons] at this h
        omega

theorem auth_list_users_loop_mono (fuel : Nat) :
    ∀ (txt : List Char) (list : List AuthUser) (r : AuthStatus × List AuthUser) (k : Nat),
      auth_list_users_loop fuel txt list = some r →
      auth_list_users_loop (fuel + k) txt list = some r := by
  induction fuel with
  | zero => intro txt list r k h; simp [auth_list_users_loop] at h
  | succ n ih =>
    intro txt list r k h
    have hk : n + 1 + k = (n + k) + 1 := by omega
    rw [hk]
    cases txt with
    | nil => simpa [auth_list_users_loop] using h
    | cons c t =>
      simp only [auth_list_users_loop] at h ⊢
      split at h
      · exact h
      · exact ih _ _ _ k h

theorem auth_list_users_loop_fprint (u : AuthUser) (h : EnregistrementValide u)
    (fuel : Nat) (rest : List Char) (list : List AuthUser) :
    auth_list_users_loop (fuel + 1) (auth_fprint_user u ++ rest) list =
      auth_list_users_loop fuel rest (list ++ [u]) := by
  have hfg := auth_fprint_user_fgets u h rest
  have hcs := cstr_self _ (auth_fprint_user_no_nul u h)
  have hp := auth_parse_line_fprint u h
  cases htxt : auth_fprint_user u ++ rest with
  | nil =>
    exfalso
    have := List.append_eq_nil.mp htxt
    exact auth_fprint_user_ne_nil u this.1
  | cons c r =>
    rw [htxt] at hfg
    simp only [auth_list_users_loop, hfg, hcs, hp]

theorem auth_list_users_loop_flatMap (L : List AuthUser) (hL : ∀ u ∈ L, EnregistrementValide u) :
    ∀ (fuel : Nat) (rest : List Char) (list : List AuthUser),
      auth_list_users_loop (fuel + L.length) (L.flatMap auth_fprint_user ++ rest) list =
        auth_list_users_loop fuel rest (list ++ L) := by
  induction L with
  | nil => intro fuel rest list; simp
  | cons u L ih =>
    intro fuel rest list
    have hu : EnregistrementValide u := hL u (by simp)
    have hL2 : ∀ v ∈ L, EnregistrementValide v := fun v hv => hL v (by simp [hv])
    have hf : fuel + (u :: L).length = (fuel + L.length) + 1 := by simp; omega
    rw [hf, List.flatMap_cons, List.append_assoc, auth_list_users_loop_fprint u hu, ih hL2]
    simp

theorem flatMap_fprint_length (L : List AuthUser) :
    L.length ≤ (L.flatMap auth_fprint_user).length := by
  induction L with
  | nil => simp
  | cons u L ih =>
    rw [List.flatMap_cons, List.length_append, List.length_cons]
    have : 1 ≤ (auth_fprint_user u).length := by
      simp only [auth_fprint_user, List.length_append, List.length_cons, List.length_nil]
      omega
    omega

/-- A readable file that holds the printed form of valid records lists these records. -/
theorem auth_list_users_printed (f : Fichier) (L : List AuthUser)
    (hL : ∀ u ∈ L, EnregistrementValide u)
    (hf : fopen_r f = some (L.flatMap auth_fprint_user)) :
    auth_list_users f = (AUTH_OK, L) := by
  unfold auth_list_users
  rw [hf]
  simp only
  have h1 := auth_list_users_loop_flatMap L hL 1 [] []
  simp only [List.append_nil, List.nil_append, auth_list_users_loop] at h1
  have h2 := auth_list_users_loop_mono _ _ _ _
    ((L.flatMap auth_fprint_user).length - L.length) h1
  have hlen := flatMap_fprint_length L
  have h3 : 1 + L.length + ((L.flatMap auth_fprint_user).length - L.length) =
      (L.flatMap auth_fprint_user).length + 1 := by omega
  rw [h3] at h2
  rw [h2]
  rfl

/-! ## Records read from a file are valid records -/

theorem fgets_newlineLast : ∀ (n : Nat) (txt : List Char), NewlineLast (fgets n txt).1 := by
  intro n
  induction n with
  | zero =>
    intro txt pre post h
    simp [fgets] at h
  | succ n ih =>
    intro txt
    cases txt with
    | nil =>
      intro pre post h
      simp [fgets] at h
    | cons c r =>
      intro pre post h
      by_cases hc : c = '\n'
      · simp only [fgets, if_pos hc] at h
        cases pre with
        | nil =>
          simp only [List.nil_append, List.cons.injEq] at h
          exact h.2.symm
        | cons a pre => simp at h
      · simp only [fgets, if_neg hc] at h
        cases pre with
        | nil =>
          simp only [List.nil_append, List.cons.injEq] at h
          exact absurd h.1 hc
        | cons a pre =>
          simp only [List.cons_append, List.cons.injEq] at h
          exact ih r pre post h.2

theorem cstr_newlineLast (l : List Char) (h : NewlineLast l) : NewlineLast (cstr l) := by
  intro pre post hp
  have hsplit : l = cstr l ++ l.dropWhile (fun c => decide (c ≠ '\x00')) :=
    (List.takeWhile_append_dropWhile _ l).symm
  rw [hp, List.append_assoc, List.cons_append] at hsplit
  have := h pre _ hsplit
  exact (List.append_eq_nil.mp this).1

theorem cstr_no_nul (l : List Char) : ∀ c ∈ cstr l, c ≠ '\x00' := by
  intro c hc
  have := List.mem_takeWhile_imp hc
  simpa using this

theorem auth_chomp_subset (s : CStr) : ∀ c ∈ auth_chomp s, c ∈ s := by
  intro c hc
  unfold auth_chomp at hc
  split at hc
  · exact hc
  · split_ifs at hc
    · split at hc
      · exact List.mem_of_mem_dropLast hc
      · split_ifs at hc
        · exact List.mem_of_mem_dropLast (List.mem_of_mem_dropLast hc)
        · exact List.mem_of_mem_dropLast hc
    · exact hc

theorem auth_chomp_no_newline (s : CStr) (h : NewlineLast s) : ∀ c ∈ auth_chomp s, c ≠ '\n' := by
  rcases List.eq_nil_or_concat s with rfl | ⟨t, d, rfl⟩
  · intro c hc
    simp [auth_chomp] at hc
  · rw [List.concat_eq_append] at h ⊢
    have ht : ∀ c ∈ t, c ≠ '\n' := by
      intro c hc hcn
      obtain ⟨a, b, hab⟩ := List.append_of_mem hc
      have := h a (b ++ [d]) (by rw [hab, hcn]; simp)
      simp at this
    intro c hc
    unfold auth_chomp at hc
    rw [List.getLast?_concat] at hc
    simp only [List.dropLast_concat] at hc
    split_ifs at hc with hd
    · split at hc
      · exact ht c hc
      · split_ifs at hc
        · exact ht c (List.mem_of_mem_dropLast hc)
        · exact ht c hc
    · rcases List.mem_append.mp hc with hc | hc
      · exact ht c hc
      · rw [List.mem_singleton] at hc
        rw [hc]
        exact fun hdn => hd (Or.inl hdn)

theorem strtok_spec (r tok r2 : CStr) (h : strtok r = some (tok, r2)) :
    tok ≠ [] ∧ (∀ c ∈ tok, c ≠ ';') ∧ (∀ c ∈ tok, c ∈ r) ∧ (∀ c ∈ r2, c ∈ r) := by
  unfold strtok at h
  cases hd : r.dropWhile (fun c => decide (c = ';')) with
  | nil => rw [hd] at h; simp at h
  | cons a t =>
    rw [hd] at h
    simp only [Option.some.injEq, Prod.mk.injEq] at h
    obtain ⟨h1, h2⟩ := h
    have hsub : ∀ c ∈ a :: t, c ∈ r := by
      intro c hc
      rw [← hd] at hc
      exact (List.dropWhile_sublist _).subset hc
    have ha : a ≠ ';' := by
      have := List.head_dropWhile_not (fun c => decide (c = ';')) r (by rw [hd]; simp)
      simp only [hd, List.head_cons, decide_eq_false_iff_not] at this
      exact this
    refine ⟨?_, ?_, ?_, ?_⟩
    · rw [← h1, List.takeWhile_cons]
      simp [ha]
    · intro c hc
      rw [← h1] at hc
      have := List.mem_takeWhile_imp hc
      simpa using this
    · intro c hc
      rw [← h1] at hc
      exact hsub c ((List.takeWhile_sublist _).subset hc)
    · intro c hc
      rw [← h2] at hc
      exact hsub c ((List.dropWhile_sublist _).subset (List.mem_of_mem_drop hc))

theorem champValide_take (n : Nat) (hn : 0 < n) (tok : CStr) (h1 : tok ≠ [])
    (h2 : ∀ c ∈ tok, c ≠ ';') (h3 : ∀ c ∈ tok, c ≠ '\n') (h4 : ∀ c ∈ tok, c ≠ '\x00') :
    ChampValide (strncpy n tok) ∧ (strncpy n tok).length ≤ n := by
  refine ⟨⟨?_, ?_⟩, ?_⟩
  · cases tok with
    | nil => exact absurd rfl h1
    | cons a t =>
      cases n with
      | zero => omega
      | succ n => simp [strncpy]
  · intro c hc
    have hm : c ∈ tok := List.mem_of_mem_take hc
    exact ⟨h2 c hm, h3 c hm, h4 c hm⟩
  · exact List.length_take_le n tok

/-- Every record that `auth_parse_line` accepts from a NUL-free buffer whose only
newline is final is a valid record. -/
theorem auth_parse_line_valide (s : CStr) (u : AuthUser) (hnul : ∀ c ∈ s, c ≠ '\x00')
    (hnl : NewlineLast s) (h : auth_parse_line s = .ok u) : EnregistrementValide u := by
  have hc1 : ∀ c ∈ auth_chomp s, c ≠ '\n' := auth_chomp_no_newline s hnl
  have hc2 : ∀ c ∈ auth_chomp s, c ≠ '\x00' := fun c hc => hnul c (auth_chomp_subset s c hc)
  unfold auth_parse_line at h
  cases h1 : strtok (auth_chomp s) with
  | none => rw [h1] at h; simp at h
  | some p1 =>
    obtain ⟨username, r1⟩ := p1
    rw [h1] at h
    simp only at h
    obtain ⟨a1, a2, a3, a4⟩ := strtok_spec _ _ _ h1
    cases h2 : strtok r1 with
    | none => rw [h2] at h; simp at h
    | some p2 =>
      obtain ⟨password, r2⟩ := p2
      rw [h2] at h
      simp only at h
      obtain ⟨b1, b2, b3, b4⟩ := strtok_spec _ _ _ h2
      cases h3 : strtok r2 with
      | none => rw [h3] at h; simp at h
      | some p3 =>
        obtain ⟨role, r3⟩ := p3
        rw [h3] at h
        simp only at h
        obtain ⟨c1, c2, c3, _⟩ := strtok_spec _ _ _ h3
        cases h4 : strtok r3 with
        | none => rw [h4] at h; simp at h
        | some p4 =>
          rw [h4] at h
          simp only [Except.ok.injEq] at h
          have hu := champValide_take AUTH_MAX_USERNAME (by decide) username a1 a2
            (fun c hc => hc1 c (a3 c hc)) (fun c hc => hc2 c (a3 c hc))
          have hp := champValide_take AUTH_MAX_PASSWORD (by decide) password b1 b2
            (fun c hc => hc1 c (a4 c (b3 c hc))) (fun c hc => hc2 c (a4 c (b3 c hc)))
          have hr := champValide_take AUTH_MAX_ROLE (by decide) role c1 c2
            (fun c hc => hc1 c (a4 c (b4 c (c3 c hc))))
            (fun c hc => hc2 c (a4 c (b4 c (c3 c hc))))
          rw [← h]
          refine ⟨hu.1, hu.2, hp.1, hp.2, hr.1, hr.2, ?_⟩
          simp only
          split_ifs
          · right; rfl
          · left; rfl

theorem auth_list_users_loop_valide (fuel : Nat) :
    ∀ (txt : List Char) (list : List AuthUser) (st : AuthStatus) (L : List AuthUser),
      (∀ u ∈ list, EnregistrementValide u) →
      auth_list_users_loop fuel txt list = some (st, L) →
      ∀ u ∈ L, EnregistrementValide u := by
  induction fuel with
  | zero => intro txt list st L _ h; simp [auth_list_users_loop] at h
  | succ n ih =>
    intro txt list st L hlist h
    cases txt with
    | nil =>
      simp only [auth_list_users_loop, Option.some.injEq, Prod.mk.injEq] at h
      rw [← h.2]
      exact hlist
    | cons c r =>
      simp only [auth_list_users_loop] at h
      cases hp : auth_parse_line (cstr (fgets (AUTH_MAX_LINE - 1) (c :: r)).1) with
      | error e =>
        rw [hp] at h
        simp only [Option.some.injEq, Prod.mk.injEq] at h
        rw [← h.2]
        intro u hu
        simp at hu
      | ok v =>
        rw [hp] at h
        simp only at h
        have hv : EnregistrementValide v :=
          auth_parse_line_valide _ v (cstr_no_nul _)
            (cstr_newlineLast _ (fgets_newlineLast _ _)) hp
        apply ih _ _ _ _ _ h
        intro u hu
        rcases List.mem_append.mp hu with hu | hu
        · exact hlist u hu
        · rw [List.mem_singleton] at hu
          rw [hu]
          exact hv

/-- Every account that `auth_list_users` returns is a valid record. -/
theorem auth_list_users_valide (f : Fichier) :
    ∀ u ∈ (auth_list_users f).2, EnregistrementValide u := by
  unfold auth_list_users
  cases fopen_r f with
  | none => intro u hu; simp at hu
  | some txt =>
    simp only
    cases hl : auth_list_users_loop (txt.length + 1) txt [] with
    | none => intro u hu; simp at hu
    | some r =>
      obtain ⟨st, L⟩ := r
      simp only [Option.getD_some]
      exact auth_list_users_loop_valide _ _ _ _ _ (by simp) hl

/-! ## Successful registration -/

theorem fopen_r_of_ok (f : Fichier) (h : (auth_list_users f).1 = AUTH_OK) :
    ∃ txt, fopen_r f = some txt := by
  cases hf : fopen_r f with
  | some txt => exact ⟨txt, rfl⟩
  | none => simp [auth_list_users, hf] at h

/-- C10 (amended). Successful registration appends: on a ledger that reads as the
accounts `L`, for a login that no account of `L` carries, when the login and the
password cut to their first 64 characters and the role cut to its first 32 characters
are valid fields (not empty, no `;`, no newline, no NUL) and `auth_register_user`
returns `AUTH_OK`, the next `auth_list_users` returns `AUTH_OK` with `L` followed by
the account made of these cut fields with `active = 1`. -/
theorem register_appends (f : Fichier) (L : List AuthUser) (username password role : CStr)
    (hL : auth_list_users f = (AUTH_OK, L))
    (hnew : ∀ u ∈ L, u.username ≠ username)
    (hu : ChampValide (strncpy AUTH_MAX_USERNAME username))
    (hp : ChampValide (strncpy AUTH_MAX_PASSWORD password))
    (hr : ChampValide (strncpy AUTH_MAX_ROLE role))
    (hreg : (auth_register_user f username password role).1 = AUTH_OK) :
    auth_list_users (auth_register_user f username password role).2 =
      (AUTH_OK, L ++ [{ username := strncpy AUTH_MAX_USERNAME username,
                        password := strncpy AUTH_MAX_PASSWORD password,
                        role := strncpy AUTH_MAX_ROLE role,
                        active := 1 }]) := by
  have hst : (auth_list_users f).1 = AUTH_OK := by rw [hL]
  have hl2 : (auth_list_users f).2 = L := by rw [hL]
  obtain ⟨txt, htxt⟩ := fopen_r_of_ok f hst
  have hlis : f.lisible = true := by
    by_contra hne
    simp [fopen_r, hne] at htxt
  have hnex : ¬ ∃ u ∈ L, u.username = username := by
    rintro ⟨u, hu, hun⟩
    exact hnew u hu hun
  have hvalid : ∀ u : AuthUser, u ∈ L ++ [(⟨strncpy AUTH_MAX_USERNAME username,
      strncpy AUTH_MAX_PASSWORD password, strncpy AUTH_MAX_ROLE role, 1⟩ : AuthUser)] →
      EnregistrementValide u := by
    intro u hmem
    rcases List.mem_append.mp hmem with hmem | hmem
    · have := auth_list_users_valide f u (by rw [hl2]; exact hmem)
      exact this
    · rw [List.mem_singleton] at hmem
      rw [hmem]
      exact ⟨hu, List.length_take_le _ _, hp, List.length_take_le _ _, hr,
        List.length_take_le _ _, Or.inr rfl⟩
  have hregeq : auth_register_user f username password role =
      auth_save_all f (L ++ [(⟨strncpy AUTH_MAX_USERNAME username,
        strncpy AUTH_MAX_PASSWORD password, strncpy AUTH_MAX_ROLE role, 1⟩ : AuthUser)]) := by
    unfold auth_register_user
    rw [auth_init_of_readable f txt htxt]
    simp only [hst, hl2, ne_eq, not_true_eq_false, if_false, false_and]
    rw [if_neg hnex]
  rw [hregeq] at hreg ⊢
  unfold auth_save_all at hreg ⊢
  cases hw : f.inscriptible with
  | false => simp [fopen_w, hw] at hreg
  | true =>
    simp only [fopen_w, hw, if_true]
    apply auth_list_users_printed _ _ hvalid
    simp [fopen_r, hlis]

/-- C10. A login of 65 characters, absent from a ledger that lists alice, is registered
with `AUTH_OK`, and the ledger then lists alice followed by an account whose login
is only the first 64 characters: not the account with the supplied login. -/
theorem register_long_login_truncated :
    auth_list_users fichierAlice = (AUTH_OK, [compteAlice]) ∧
    (∀ u ∈ [compteAlice], u.username ≠ loginLong) ∧
    (auth_register_user fichierAlice loginLong "pw".toList "votant".toList).1 = AUTH_OK ∧
    auth_list_users (auth_register_user fichierAlice loginLong "pw".toList "votant".toList).2 =
      (AUTH_OK, [compteAlice,
        { username := List.replicate 64 'a', password := "pw".toList,
          role := "votant".toList, active := 1 }]) ∧
    auth_list_users (auth_register_user fichierAlice loginLong "pw".toList "votant".toList).2 ≠
      (AUTH_OK, [compteAlice] ++
        [{ username := loginLong, password := "pw".toList,
           role := "votant".toList, active := 1 }]) := by
  decide

/-! ## Instances on the sample data -/

/-- C1, on a sample: alice submits `VOTE 1 5` twice; the first is accepted, the second is not. -/
theorem one_vote_per_voter_witness :
    (etatAlice.electeurs.map (·.id)).Nodup ∧
    rejouer etatAlice [voteAlice, voteAlice] = [(voteAlice, 1), (voteAlice, 0)] ∧
    ((rejouer etatAlice [voteAlice, voteAlice]).filter
      (fun p => decide (p.1.idE = 1 ∧ p.2 ≠ 0))).length ≤ 1 :=
  ⟨by decide, by decide, (one_vote_per_voter etatAlice (by decide) [voteAlice, voteAlice] 1).1⟩

/-- C3, on a sample: the vote is open and alice has not voted, the reply is OK. -/
theorem acceptance_rule_witness :
    (etatAlice.electeurs.map (·.id)).Nodup ∧
    reponseVote (threadServeurReseau_vote etatAlice "VOTE".toList "alice".toList 1 5).2 =
      "OK".toList :=
  ⟨by decide,
   (acceptance_rule etatAlice (by decide) "alice".toList 1 5).1.mpr
     ⟨by decide, by decide, by decide⟩⟩

/-- C5, on a sample: alice votes for candidate 5, whose `voix` is 0; the total grows by
one. -/
theorem counted_vote_effect_witness :
    (threadServeurReseau_vote etatAlice "VOTE".toList "alice".toList 1 5).2 ≠ 0 ∧
    (∃ c ∈ etatAlice.candidats, c.id = 5) ∧
    (∀ c ∈ etatAlice.candidats, INT_MIN ≤ c.voix ∧ c.voix < INT_MAX) ∧
    totalVoix (threadServeurReseau_vote etatAlice "VOTE".toList "alice".toList 1 5).1.candidats =
      totalVoix etatAlice.candidats + 1 :=
  ⟨by decide, by decide, by decide,
   (counted_vote_effect etatAlice "VOTE".toList "alice".toList 1 5 (by decide) (by decide)
     (fun pre c post h _ _ =>
       (by decide : ∀ c ∈ etatAlice.candidats, INT_MIN ≤ c.voix ∧ c.voix < INT_MAX) c
         (by rw [h]; simp))).1⟩

/-- C6, on a sample: bob is disabled; his right password is refused. -/
theorem inactive_never_authenticated_witness :
    (auth_list_users fichierDeux).2.find? (fun v => decide (v.username = "bob".toList)) =
      some compteBob ∧
    compteBob.active = 0 ∧
    auth_authenticate fichierDeux "bob".toList "x".toList compteAlice =
      (AUTH_ERR_INVALID, compteAlice) :=
  ⟨by decide, by decide,
   (inactive_never_authenticated fichierDeux "bob".toList "x".toList compteAlice).1
     compteBob (by decide) (by decide)⟩

/-- C7, on a sample: alice with her password is authenticated. -/
theorem authenticate_result_witness :
    auth_list_users fichierDeux = (AUTH_OK, [compteAlice, compteBob]) ∧
    ([compteAlice, compteBob].map (·.username)).Nodup ∧
    (auth_authenticate fichierDeux "alice".toList "pw".toList compteBob).1 = AUTH_OK :=
  ⟨by decide, by decide,
   (authenticate_result fichierDeux [compteAlice, compteBob] "alice".toList "pw".toList
     compteBob (by decide) (by decide)).2.1.mpr ⟨compteAlice, by decide, by decide⟩⟩

/-- C8, on a sample: a wrong old password for bob is refused and the file is kept. -/
theorem change_password_check_witness :
    (auth_list_users fichierDeux).1 = AUTH_OK ∧
    auth_change_password fichierDeux "bob".toList (some "y".toList) "z".toList =
      (AUTH_ERR_INVALID, fichierDeux) :=
  ⟨by decide,
   (change_password_check fichierDeux "bob".toList "z".toList (by decide)).2.1
     "y".toList compteBob (by decide) (by decide)⟩

/-- C9, on a sample: alice is listed, registering alice again is refused, and
registering Alice is not refused as a duplicate. -/
theorem duplicate_registration_refused_witness :
    (∃ u ∈ (auth_list_users fichierAlice).2, u.username = "alice".toList) ∧
    auth_register_user fichierAlice "alice".toList "q".toList "votant".toList =
      (AUTH_ERR_EXISTS, fichierAlice) ∧
    (∀ u ∈ (auth_list_users fichierAlice).2, u.username ≠ "Alice".toList) ∧
    (auth_register_user fichierAlice "Alice".toList "q".toList "votant".toList).1 ≠
      AUTH_ERR_EXISTS :=
  ⟨by decide,
   (duplicate_registration_refused fichierAlice "alice".toList "q".toList "votant".toList).1
     (by decide),
   by decide,
   (duplicate_registration_refused fichierAlice "Alice".toList "q".toList "votant".toList).2
     (by decide)⟩

/-- C10 (amended), on a sample: registering bob on the ledger that lists alice. -/
theorem register_appends_witness :
    auth_list_users fichierAlice = (AUTH_OK, [compteAlice]) ∧
    (auth_register_user fichierAlice "bob".toList "x".toList "admin".toList).1 = AUTH_OK ∧
    auth_list_users (auth_register_user fichierAlice "bob".toList "x".toList "admin".toList).2 =
      (AUTH_OK, [compteAlice] ++
        [{ username := strncpy AUTH_MAX_USERNAME "bob".toList,
           password := strncpy AUTH_MAX_PASSWORD "x".toList,
           role := strncpy AUTH_MAX_ROLE "admin".toList,
           active := 1 }]) :=
  ⟨by decide, by decide,
   register_appends fichierAlice [compteAlice] "bob".toList "x".toList "admin".toList
     (by decide) (by decide) (by decide) (by decide) (by decide) (by decide)⟩

/-! ## Ledger invariants and round trip -/

/-- C11. Evaluation of registrations on an empty ledger that all return `AUTH_OK` and
leave two accounts with the same login: the same login of 65 characters registered
twice is listed twice under its first 64 characters; the logins `a;x` and `a;y` are both
listed under the login `a`. -/
theorem register_does_not_keep_logins_unique :
    (auth_register_user fichierVide loginLong "pw".toList "votant".toList).1 = AUTH_OK ∧
    (auth_register_user
      (auth_register_user fichierVide loginLong "pw".toList "votant".toList).2
      loginLong "pw".toList "votant".toList).1 = AUTH_OK ∧
    auth_list_users (auth_register_user
      (auth_register_user fichierVide loginLong "pw".toList "votant".toList).2
      loginLong "pw".toList "votant".toList).2 =
      (AUTH_OK,
        [{ username := List.replicate 64 'a', password := "pw".toList,
           role := "votant".toList, active := 1 },
         { username := List.replicate 64 'a', password := "pw".toList,
           role := "votant".toList, active := 1 }]) ∧
    (auth_register_user fichierVide "a;x".toList "p".toList "votant".toList).1 = AUTH_OK ∧
    (auth_register_user
      (auth_register_user fichierVide "a;x".toList "p".toList "votant".toList).2
      "a;y".toList "p".toList "votant".toList).1 = AUTH_OK ∧
    auth_list_users (auth_register_user
      (auth_register_user fichierVide "a;x".toList "p".toList "votant".toList).2
      "a;y".toList "p".toList "votant".toList).2 =
      (AUTH_OK,
        [{ username := "a".toList, password := "x".toList, role := "p".toList, active := 0 },
         { username := "a".toList, password := "y".toList, role := "p".toList, active := 0 }]) := by
  decide

/-- C20. Evaluation of a registration on a users file that cannot be opened for reading
but can be opened for writing: the read inside `auth_register_user` fails with
`AUTH_ERR_IO`, yet the call returns `AUTH_OK` and the file, which held alice, now
holds the new account only. -/
theorem register_swallows_read_failure :
    (auth_list_users (auth_init fichierIllisible).2).1 = AUTH_ERR_IO ∧
    auth_register_user fichierIllisible "bob".toList "x".toList "votant".toList =
      (AUTH_OK, { contenu := some "bob;x;votant;1\n".toList,
                  lisible := false, inscriptible := true }) := by
  decide

/-- C12. An account list within the length limits whose password holds the delimiter:
it is written with `AUTH_OK`, and read back as a different account (password cut at the
delimiter, role and flag shifted). -/
theorem save_then_list_delimiter :
    compteDelim.username.length ≤ 64 ∧ compteDelim.password.length ≤ 64 ∧
    compteDelim.role.length ≤ 32 ∧ compteDelim.active = 1 ∧
    (auth_save_all fichierVide [compteDelim]).1 = AUTH_OK ∧
    auth_list_users (auth_save_all fichierVide [compteDelim]).2 =
      (AUTH_OK, [{ username := "bob".toList, password := "p".toList,
                   role := "q".toList, active := 0 }]) ∧
    auth_list_users (auth_save_all fichierVide [compteDelim]).2 ≠ (AUTH_OK, [compteDelim]) := by
  decide

/-- C12 (amended). Ledger round trip: for every list of accounts whose fields are valid
(not empty, no `;`, no newline, no NUL), fit the length limits and whose flag is 0 or
1, when `auth_save_all` returns `AUTH_OK` on a file that can be opened for reading,
`auth_list_users` returns `AUTH_OK` with the same accounts in the same order. -/
theorem ledger_round_trip (f : Fichier) (L : List AuthUser)
    (hL : ∀ u ∈ L, EnregistrementValide u) (hr : f.lisible = true)
    (hw : (auth_save_all f L).1 = AUTH_OK) :
    auth_list_users (auth_save_all f L).2 = (AUTH_OK, L) := by
  unfold auth_save_all at hw ⊢
  cases hi : f.inscriptible with
  | false => simp [fopen_w, hi] at hw
  | true =>
    simp only [fopen_w, hi, if_true]
    apply auth_list_users_printed _ _ hL
    simp [fopen_r, hr]

/-- C12 (amended), on a sample: alice and bob written to an empty file and read back. -/
theorem ledger_round_trip_witness :
    (∀ u ∈ [compteAlice, compteBob], EnregistrementValide u) ∧
    auth_list_users (auth_save_all fichierVide [compteAlice, compteBob]).2 =
      (AUTH_OK, [compteAlice, compteBob]) :=
  ⟨by decide,
   ledger_round_trip fichierVide [compteAlice, compteBob] (by decide) (by decide) (by decide)⟩

/-! ## Activation flag -/

theorem chercherIndex_split (username : CStr) (L : List AuthUser) :
    ∀ (i : Nat) (u : AuthUser), chercherIndex username L = some (i, u) →
      ∃ pre post, L = pre ++ u :: post ∧ (∀ v ∈ pre, v.username ≠ username) ∧
        u.username = username ∧ ∀ x : AuthUser, L.set i x = pre ++ x :: post := by
  induction L with
  | nil => intro i u h; simp [chercherIndex] at h
  | cons w L ih =>
    intro i u h
    by_cases hw : w.username = username
    · simp only [chercherIndex, if_pos hw, Option.some.injEq, Prod.mk.injEq] at h
      obtain ⟨rfl, rfl⟩ := h
      exact ⟨[], L, rfl, by simp, hw, fun x => rfl⟩
    · simp only [chercherIndex, if_neg hw] at h
      cases hc : chercherIndex username L with
      | none => rw [hc] at h; simp at h
      | some p =>
        obtain ⟨j, v⟩ := p
        rw [hc] at h
        simp only [Option.map_some', Option.some.injEq, Prod.mk.injEq] at h
        obtain ⟨rfl, rfl⟩ := h
        obtain ⟨pre, post, hL, hpre, hv, hset⟩ := ih j v hc
        refine ⟨w :: pre, post, by rw [hL]; rfl, ?_, hv, ?_⟩
        · intro x hx
          rcases List.mem_cons.mp hx with rfl | hx
          · exact hw
          · exact hpre x hx
        · intro x
          simp only [List.set_cons_succ, List.cons_append, List.cons.injEq, true_and]
          exact hset x

theorem chercherIndex_of_split (username : CStr) (pre post : List AuthUser) (u : AuthUser)
    (hpre : ∀ v ∈ pre, v.username ≠ username) (hu : u.username = username) :
    chercherIndex username (pre ++ u :: post) = some (pre.length, u) := by
  induction pre with
  | nil => simp [chercherIndex, hu]
  | cons w pre ih =>
    have hw : w.username ≠ username := hpre w (by simp)
    have ih2 := ih (fun v hv => hpre v (by simp [hv]))
    simp [chercherIndex, hw, ih2]

theorem set_split (pre post : List AuthUser) (u x : AuthUser) :
    (pre ++ u :: post).set pre.length x = pre ++ x :: post := by
  induction pre with
  | nil => rfl
  | cons w pre ih => simp [ih]

/-- C14. A users file that lists alice and cannot be opened for writing: `auth_set_active`
on alice returns `AUTH_ERR_IO`, not `AUTH_OK`, and the file is left as it was. -/
theorem set_active_read_only :
    auth_list_users fichierLectureSeule = (AUTH_OK, [compteAlice]) ∧
    auth_set_active fichierLectureSeule "alice".toList 0 = ( AUTH_ERR_IO, fichierLectureSeule) := by
  decide

/-- C14 (amended). Function `auth_set_active` on a ledger that reads as the accounts `L`:
when no account of `L` has the login the result is `AUTH_ERR_NOTFOUND` and the file is
unchanged; when `L = pre ++ u :: post` with `u` the first account with the login, the
result is `AUTH_OK` if the file can be opened for writing, and the ledger then lists
`pre`, `u` with only its flag replaced by `active != 0`, then `post`; if the file cannot
be opened for writing the result is `AUTH_ERR_IO` and the file is unchanged. -/
theorem set_active_effect (f : Fichier) (L : List AuthUser) (username : CStr) (active : Int)
    (hL : auth_list_users f = (AUTH_OK, L)) :
    ((∀ u ∈ L, u.username ≠ username) →
      auth_set_active f username active = (AUTH_ERR_NOTFOUND, f)) ∧
    (∀ (pre post : List AuthUser) (u : AuthUser), L = pre ++ u :: post →
      (∀ v ∈ pre, v.username ≠ username) → u.username = username →
      (f.inscriptible = true →
        (auth_set_active f username active).1 = AUTH_OK ∧
        auth_list_users (auth_set_active f username active).2 =
          (AUTH_OK, pre ++ { u with active := if active ≠ 0 then 1 else 0 } :: post)) ∧
      (f.inscriptible = false →
        auth_set_active f username active = ( AUTH_ERR_IO, f))) := by
  have hst : (auth_list_users f).1 = AUTH_OK := by rw [hL]
  have hl2 : (auth_list_users f).2 = L := by rw [hL]
  constructor
  · intro hnone
    unfold auth_set_active
    rw [if_neg (not_not.mpr hst), hl2, chercherIndex_none username L hnone]
  · intro pre post u hsplit hpre hu
    have hidx := chercherIndex_of_split username pre post u hpre hu
    have hset := set_split pre post u { u with active := if active ≠ 0 then 1 else 0 }
    have hsa : auth_set_active f username active =
        auth_save_all f (pre ++ { u with active := if active ≠ 0 then 1 else 0 } :: post) := by
      unfold auth_set_active
      rw [if_neg (not_not.mpr hst), hl2, hsplit, hidx]
      simp only
      rw [hset]
    obtain ⟨txt, htxt⟩ := fopen_r_of_ok f hst
    have hlis : f.lisible = true := by
      by_contra hne
      simp [fopen_r, hne] at htxt
    have hvalL : ∀ v ∈ L, EnregistrementValide v := by
      intro v hv
      exact auth_list_users_valide f v (by rw [hl2]; exact hv)
    have hvalid : ∀ v ∈ pre ++ { u with active := if active ≠ 0 then 1 else 0 } :: post,
        EnregistrementValide v := by
      intro v hv
      simp only [List.mem_append, List.mem_cons] at hv
      rcases hv with hv | rfl | hv
      · exact hvalL v (by rw [hsplit]; simp [hv])
      · obtain ⟨h1, h2, h3, h4, h5, h6, _⟩ := hvalL u (by rw [hsplit]; simp)
        refine ⟨h1, h2, h3, h4, h5, h6, ?_⟩
        simp only
        split_ifs
        · right; rfl
        · left; rfl
      · exact hvalL v (by rw [hsplit]; simp [hv])
    constructor
    · intro hw
      rw [hsa]
      have hsave : auth_save_all f
          (pre ++ { u with active := if active ≠ 0 then 1 else 0 } :: post) =
          (AUTH_OK, { f with contenu := some ((pre ++
            { u with active := if active ≠ 0 then 1 else 0 } :: post).flatMap
              auth_fprint_user) }) := by
        simp [auth_save_all, fopen_w, hw]
      rw [hsave]
      refine ⟨rfl, ?_⟩
      apply auth_list_users_printed _ _ hvalid
      simp [fopen_r, hlis]
    · intro hw
      rw [hsa]
      simp [auth_save_all, fopen_w, hw]

/-- C14 (amended), on a sample: bob, listed after alice, is enabled. -/
theorem set_active_effect_witness :
    auth_list_users fichierDeux = (AUTH_OK, [compteAlice, compteBob]) ∧
    auth_list_users (auth_set_active fichierDeux "bob".toList 7).2 =
      (AUTH_OK, [compteAlice] ++ [{ compteBob with active := if (7 : Int) ≠ 0 then 1 else 0 }]) :=
  ⟨by decide,
   ((set_active_effect fichierDeux [compteAlice, compteBob] "bob".toList 7 (by decide)).2
     [compteAlice] [] compteBob (by decide) (by decide) (by decide)).1 (by decide) |>.2⟩

/-! ## Record format: number of fields -/

theorem decouper_takeWhile (r : CStr) :
    decouper r = r.takeWhile (fun c => decide (c ≠ ';')) ::
      (match r.dropWhile (fun c => decide (c ≠ ';')) with
       | [] => []
       | _ :: t => decouper t) := by
  induction r with
  | nil => rfl
  | cons c r ih =>
    by_cases hc : c = ';'
    · simp [decouper, hc]
    · rw [decouper, if_neg hc, ih]
      simp [hc]

theorem strtok_cons_delim (r : CStr) : strtok (';' :: r) = strtok r := by
  simp [strtok]

theorem strtok_cons_other (c : Char) (r : CStr) (hc : c ≠ ';') :
    strtok (c :: r) =
      some (c :: r.takeWhile (fun c => decide (c ≠ ';')),
            (r.dropWhile (fun c => decide (c ≠ ';'))).drop 1) := by
  simp [strtok, hc]

/-- What one call of `strtok` does to the list of non-empty fields: NULL when there is
none, otherwise the first one is returned and the others are left. -/
theorem strtok_fields (s : CStr) :
    (strtok s = none ∧ (decouper s).filter (fun x => decide (x ≠ [])) = []) ∨
    (∃ tok rest, strtok s = some (tok, rest) ∧
      (decouper s).filter (fun x => decide (x ≠ [])) =
        tok :: (decouper rest).filter (fun x => decide (x ≠ []))) := by
  induction s with
  | nil => left; simp [strtok, decouper]
  | cons c r ih =>
    by_cases hc : c = ';'
    · subst hc
      rw [strtok_cons_delim]
      have hd : (decouper (';' :: r)).filter (fun x => decide (x ≠ [])) =
          (decouper r).filter (fun x => decide (x ≠ [])) := by
        simp [decouper]
      rw [hd]
      exact ih
    · right
      refine ⟨_, _, strtok_cons_other c r hc, ?_⟩
      rw [decouper_takeWhile (c :: r)]
      simp only [List.takeWhile_cons, List.dropWhile_cons, hc, ne_eq, not_false_eq_true,
        decide_True, if_true]
      rw [List.filter_cons_of_pos (by simp)]
      congr 1
      cases hdw : r.dropWhile (fun c => decide (c ≠ ';')) with
      | nil => simp [decouper]
      | cons d t => simp

/-- Function `auth_parse_line` accepts a buffer exactly when it has at least four
non-empty fields. -/
theorem auth_parse_line_fields (s : CStr) :
    (auth_parse_line s = .error AUTH_ERR_FORMAT ∧
      ((decouper (auth_chomp s)).filter (fun x => decide (x ≠ []))).length < 4) ∨
    ((∃ u, auth_parse_line s = .ok u) ∧
      4 ≤ ((decouper (auth_chomp s)).filter (fun x => decide (x ≠ []))).length) := by
  unfold auth_parse_line
  rcases strtok_fields (auth_chomp s) with ⟨h1, e1⟩ | ⟨t1, r1, h1, e1⟩
  · left; rw [h1, e1]; simp
  · rw [h1, e1]
    rcases strtok_fields r1 with ⟨h2, e2⟩ | ⟨t2, r2, h2, e2⟩
    · left; simp only [h2, e2]; simp
    · rcases strtok_fields r2 with ⟨h3, e3⟩ | ⟨t3, r3, h3, e3⟩
      · left; simp only [h2, e2, h3, e3]; simp
      · rcases strtok_fields r3 with ⟨h4, e4⟩ | ⟨t4, r4, h4, e4⟩
        · left; simp only [h2, e2, h3, e3, h4, e4]; simp
        · right
          simp only [h2, e2, h3, e3, h4, e4]
          exact ⟨⟨_, rfl⟩, by simp⟩

theorem auth_list_users_loop_format (fuel : Nat) :
    ∀ (txt : List Char) (list : List AuthUser),
      (∃ l ∈ lireLignes fuel txt, (champs l).length < 4) →
      auth_list_users_loop fuel txt list = some (AUTH_ERR_FORMAT, []) := by
  induction fuel with
  | zero => intro txt list h; simp [lireLignes] at h
  | succ n ih =>
    intro txt list h
    cases txt with
    | nil => simp [lireLignes] at h
    | cons c r =>
      obtain ⟨l, hl, hlen⟩ := h
      simp only [lireLignes, List.mem_cons] at hl
      simp only [auth_list_users_loop]
      rcases auth_parse_line_fields (cstr (fgets (AUTH_MAX_LINE - 1) (c :: r)).1) with
        ⟨herr, _⟩ | ⟨⟨u, hu⟩, hfour⟩
      · rw [herr]
      · rw [hu]
        simp only
        rcases hl with rfl | hl
        · exact absurd hfour (Nat.not_le_of_lt hlen)
        · exact ih _ _ ⟨l, hl, hlen⟩

theorem auth_list_users_loop_accept (fuel : Nat) :
    ∀ (txt : List Char) (list : List AuthUser) (r : AuthStatus × List AuthUser),
      (∀ l ∈ lireLignes fuel txt, 4 ≤ (champs l).length) →
      auth_list_users_loop fuel txt list = some r → r.1 = AUTH_OK := by
  induction fuel with
  | zero => intro txt list r _ h; simp [auth_list_users_loop] at h
  | succ n ih =>
    intro txt list r hall h
    cases txt with
    | nil =>
      simp only [auth_list_users_loop, Option.some.injEq] at h
      rw [← h]
    | cons c t =>
      simp only [lireLignes, List.mem_cons, forall_eq_or_imp] at hall
      simp only [auth_list_users_loop] at h
      rcases auth_parse_line_fields (cstr (fgets (AUTH_MAX_LINE - 1) (c :: t)).1) with
        ⟨_, hlt⟩ | ⟨⟨u, hu⟩, _⟩
      · exact absurd hall.1 (Nat.not_le_of_lt hlt)
      · rw [hu] at h
        exact ih _ _ _ hall.2 h

theorem fgets_append : ∀ (n : Nat) (txt : List Char), (fgets n txt).1 ++ (fgets n txt).2 = txt := by
  intro n
  induction n with
  | zero => intro txt; simp [fgets]
  | succ n ih =>
    intro txt
    cases txt with
    | nil => simp [fgets]
    | cons c r =>
      by_cases hc : c = '\n'
      · simp [fgets, hc]
      · simp [fgets, hc, ih r]

theorem lireLignes_flatten (fuel : Nat) :
    ∀ txt : List Char, txt.length < fuel → (lireLignes fuel txt).flatten = txt := by
  induction fuel with
  | zero => intro txt h; omega
  | succ n ih =>
    intro txt h
    cases txt with
    | nil => simp [lireLignes]
    | cons c r =>
      simp only [lireLignes, List.flatten_cons]
      rw [ih]
      · exact fgets_append _ _
      · have := fgets_rest_lt (AUTH_MAX_LINE - 1 - 1) c r
        have h511 : AUTH_MAX_LINE - 1 - 1 + 1 = AUTH_MAX_LINE - 1 := by decide
        rw [h511] at this
        simp only [List.length_cons] at this h
        omega

/-- The lines read from a text make up the whole text. -/
theorem lignes_flatten (txt : List Char) : (lignes txt).flatten = txt :=
  lireLignes_flatten _ txt (Nat.lt_succ_self _)

/-- C13. A users file whose only line splits at `;` into five fields: `auth_list_users`
returns `AUTH_OK` with the account made of the first four. -/
theorem five_fields_accepted :
    (decouper "a;b;c;1;extra".toList).length = 5 ∧
    auth_list_users fichierCinqChamps =
      (AUTH_OK, [{ username := "a".toList, password := "b".toList,
                   role := "c".toList, active := 1 }]) := by
  decide

/-- C13 (amended). Record format: for every users file that can be opened for reading,
if some line read from it has fewer than four non-empty fields between `;`, then
`auth_list_users` returns `AUTH_ERR_FORMAT` and no account, whatever the other lines
are; if every line read has at least four non-empty fields, it returns `AUTH_OK`. -/
theorem strict_record_format (f : Fichier) (txt : List Char) (hf : fopen_r f = some txt) :
    ((∃ l ∈ lignes txt, (champs l).length < 4) →
      auth_list_users f = (AUTH_ERR_FORMAT, [])) ∧
    ((∀ l ∈ lignes txt, 4 ≤ (champs l).length) → (auth_list_users f).1 = AUTH_OK) := by
  unfold auth_list_users
  rw [hf]
  simp only
  constructor
  · intro h
    rw [auth_list_users_loop_format _ txt [] h]
    rfl
  · intro h
    obtain ⟨r, hr⟩ := auth_list_users_loop_total (txt.length + 1) txt [] (Nat.lt_succ_self _)
    rw [hr]
    exact auth_list_users_loop_accept _ txt [] r h hr

/-- C13 (amended), on a sample: a good line followed by a line of three fields. -/
theorem strict_record_format_witness :
    (∃ l ∈ lignes "alice;pw;votant;1\nbob;x;admin\n".toList, (champs l).length < 4) ∧
    auth_list_users { contenu := some "alice;pw;votant;1\nbob;x;admin\n".toList,
                      lisible := true, inscriptible := true } = (AUTH_ERR_FORMAT, []) :=
  ⟨by decide,
   (strict_record_format { contenu := some "alice;pw;votant;1\nbob;x;admin\n".toList,
                           lisible := true, inscriptible := true }
     "alice;pw;votant;1\nbob;x;admin\n".toList (by decide)).1 (by decide)⟩

/-! ## Scanning a request word by word -/

theorem decouperBlancs_takeWhile (r : CStr) :
    decouperBlancs r = r.takeWhile (fun x => !isspace x) ::
      (match r.dropWhile (fun x => !isspace x) with
       | [] => []
       | _ :: t => decouperBlancs t) := by
  induction r with
  | nil => rfl
  | cons c r ih =>
    by_cases hc : isspace c = true
    · simp [decouperBlancs, hc]
    · rw [decouperBlancs, if_neg hc, ih]
      simp [hc]

theorem mots_nil : mots [] = [] := by
  simp [mots, decouperBlancs]

theorem mots_cons_space (c : Char) (r : CStr) (hc : isspace c = true) :
    mots (c :: r) = mots r := by
  simp [mots, decouperBlancs, hc]

theorem mots_dropWhile (r : CStr) :
    mots (r.dropWhile (fun x => !isspace x)) =
      (match r.dropWhile (fun x => !isspace x) with
       | [] => []
       | _ :: t => decouperBlancs t).filter (fun x => decide (x ≠ [])) := by
  cases hd : r.dropWhile (fun x => !isspace x) with
  | nil => simp [mots, decouperBlancs]
  | cons d t =>
    have hsp : isspace d = true := by
      have := List.head_dropWhile_not (fun x => !isspace x) r (by rw [hd]; simp)
      simpa [hd] using this
    simp only
    rw [mots_cons_space d t hsp]
    rfl

theorem mots_cons_word (c : Char) (r : CStr) (hc : isspace c = false) :
    mots (c :: r) = (c :: r.takeWhile (fun x => !isspace x)) ::
      mots (r.dropWhile (fun x => !isspace x)) := by
  rw [mots_dropWhile]
  unfold mots
  rw [decouperBlancs_takeWhile (c :: r)]
  simp only [List.takeWhile_cons, List.dropWhile_cons, hc, Bool.not_false, if_true]
  rw [List.filter_cons_of_pos (by simp)]

theorem scan_s_space (largeur : Option Nat) (c : Char) (r : CStr) (hc : isspace c = true) :
    scan_s largeur (c :: r) = scan_s largeur r := by
  simp [scan_s, List.dropWhile_cons, hc]

theorem scan_s_word (largeur : Option Nat) (c : Char) (r : CStr) (hc : isspace c = false) :
    scan_s largeur (c :: r) =
      some (prendre largeur (c :: r.takeWhile (fun x => !isspace x)),
            (c :: r).drop (prendre largeur (c :: r.takeWhile (fun x => !isspace x))).length) := by
  simp [scan_s, List.dropWhile_cons, List.takeWhile_cons, hc]

theorem drop_word (c : Char) (r : CStr) (_hc : isspace c = false) :
    (c :: r).drop (c :: r.takeWhile (fun x => !isspace x)).length =
      r.dropWhile (fun x => !isspace x) := by
  have h : c :: r = (c :: r.takeWhile (fun x => !isspace x)) ++
      r.dropWhile (fun x => !isspace x) := by
    simp [List.takeWhile_append_dropWhile]
  conv_lhs => rw [h]
  exact List.drop_left _ _

/-- One conversion `%s` against the words of the text: it fails when there is no word;
otherwise it stores the first word, cut to the width, and when the word is stored whole
the text left holds the other words. -/
theorem scan_s_mots (largeur : Option Nat) (s : CStr) :
    (scan_s largeur s = none ∧ mots s = []) ∨
    (∃ w ws rest, mots s = w :: ws ∧ scan_s largeur s = some (prendre largeur w, rest) ∧
      (prendre largeur w = w → mots rest = ws)) := by
  induction s with
  | nil => left; exact ⟨rfl, mots_nil⟩
  | cons c r ih =>
    cases hc : isspace c with
    | true =>
      rw [scan_s_space largeur c r hc, mots_cons_space c r hc]
      exact ih
    | false =>
      right
      refine ⟨_, _, _, mots_cons_word c r hc, scan_s_word largeur c r hc, ?_⟩
      intro hfull
      rw [hfull, drop_word c r hc]

theorem scan_s_of_mots_nil (largeur : Option Nat) (s : CStr) (h : mots s = []) :
    scan_s largeur s = none := by
  rcases scan_s_mots largeur s with ⟨h1, _⟩ | ⟨w, ws, rest, hm, _, _⟩
  · exact h1
  · rw [h] at hm
    simp at hm

theorem scan_s_of_mots_cons (n : Nat) (s w : CStr) (ws : List CStr) (h : mots s = w :: ws)
    (hlen : w.length ≤ n) :
    ∃ rest, scan_s (some n) s = some (w, rest) ∧ mots rest = ws := by
  rcases scan_s_mots (some n) s with ⟨_, h2⟩ | ⟨w2, ws2, rest, hm, hs, hfull⟩
  · rw [h] at h2
    simp at h2
  · rw [h] at hm
    simp only [List.cons.injEq] at hm
    obtain ⟨rfl, rfl⟩ := hm
    have hp : prendre (some n) w = w := List.take_of_length_le hlen
    rw [hp] at hs
    exact ⟨rest, hs, hfull hp⟩

theorem scan_s_cmd_auth (s cmd rest : CStr) (h : scan_s (some 15) s = some (cmd, rest))
    (hcmd : cmd = "AUTH".toList) : (mots s).head? = some "AUTH".toList := by
  rcases scan_s_mots (some 15) s with ⟨h1, _⟩ | ⟨w, ws, rest2, hm, hs, _⟩
  · rw [h1] at h
    simp at h
  · rw [h] at hs
    simp only [Option.some.injEq, Prod.mk.injEq] at hs
    have hw : w.take 15 = "AUTH".toList := by
      rw [← hcmd, hs.1]
      rfl
    have hlen : (w.take 15).length = 4 := by rw [hw]; rfl
    have hwl : w.length ≤ 15 := by
      rw [List.length_take] at hlen
      omega
    rw [List.take_of_length_le hwl] at hw
    rw [hm, hw]
    rfl

/-- A request whose words are exactly a command of at most 15 characters, a login and
a password of at most 64 characters is scanned into these three words. -/
theorem sscanf_auth_of_mots (b c l p : CStr) (h : mots b = [c, l, p])
    (hc : c.length ≤ 15) (hl : l.length ≤ AUTH_MAX_USERNAME) (hp : p.length ≤ AUTH_MAX_PASSWORD) :
    sscanf_auth b = (3, c, l, p) := by
  obtain ⟨r1, h1, m1⟩ := scan_s_of_mots_cons 15 b c [l, p] h hc
  obtain ⟨r2, h2, m2⟩ := scan_s_of_mots_cons AUTH_MAX_USERNAME r1 l [p] m1 hl
  obtain ⟨r3, h3, _⟩ := scan_s_of_mots_cons AUTH_MAX_PASSWORD r2 p [] m2 hp
  simp only [sscanf_auth, h1, h2, h3]

/-- A request whose first word is not `AUTH`, or that has fewer than three words, none
longer than 64 characters, is not scanned as an `AUTH` request. -/
theorem sscanf_auth_malformed (b : CStr)
    (h : (mots b).head? ≠ some "AUTH".toList ∨
      ((mots b).length < 3 ∧ ∀ w ∈ mots b, w.length ≤ 64)) :
    (sscanf_auth b).1 ≠ 3 ∨ (sscanf_auth b).2.1 ≠ "AUTH".toList := by
  by_cases hhead : (mots b).head? = some "AUTH".toList
  · rcases h with h | ⟨hlen, hall⟩
    · exact absurd hhead h
    · left
      cases hm : mots b with
      | nil => rw [hm] at hhead; simp at hhead
      | cons w ws =>
        rw [hm] at hhead hlen hall
        simp only [List.head?_cons, Option.some.injEq] at hhead
        obtain ⟨r1, h1, m1⟩ := scan_s_of_mots_cons 15 b w ws hm (by rw [hhead]; decide)
        cases ws with
        | nil =>
          have h2 := scan_s_of_mots_nil (some AUTH_MAX_USERNAME) r1 m1
          simp only [sscanf_auth, h1, h2]
          decide
        | cons w2 ws2 =>
          have hw2 : w2.length ≤ AUTH_MAX_USERNAME := hall w2 (by simp)
          obtain ⟨r2, h2, m2⟩ := scan_s_of_mots_cons AUTH_MAX_USERNAME r1 w2 ws2 m1 hw2
          cases ws2 with
          | nil =>
            have h3 := scan_s_of_mots_nil (some AUTH_MAX_PASSWORD) r2 m2
            simp only [sscanf_auth, h1, h2, h3]
            decide
          | cons w3 ws3 =>
            simp only [List.length_cons] at hlen
            omega
  · cases h1 : scan_s (some 15) b with
    | none => left; simp only [sscanf_auth, h1]; decide
    | some p =>
      obtain ⟨cmd, r1⟩ := p
      right
      intro hcmd
      apply hhead
      apply scan_s_cmd_auth b cmd r1 h1
      simp only [sscanf_auth, h1] at hcmd
      split at hcmd
      · exact hcmd
      · split at hcmd <;> exact hcmd

/-! ## The session: authentication step -/

/-- C15. An authentication request whose password token has 65 characters, sent while
the ledger holds bob with the password made of its first 64 characters: the handler
replies `AUTH_OK` and sends the candidate list. -/
theorem overlong_password_accepted :
    (mots requeteLongMdp).map List.length = [4, 3, 65] ∧
    threadServeurReseau_session etatAlice fichierLongMdp requeteLongMdp [] [] =
      (["AUTH_OK".toList, listeCandidats etatAlice.candidats], etatAlice) := by
  decide

/-- C15 (amended). Malformed authentication requests are refused: for every ledger and
every first request received whose first word is not `AUTH`, or that has fewer than
three words, none longer than 64 characters, the handler sends `AUTH_FAIL` and nothing
else, and the election state is unchanged. -/
theorem malformed_auth_refused (s : Etat) (f : Fichier) (req1 req2 cmd2_0 : List Char)
    (hne : req1 ≠ [])
    (hmal : (mots (cstr (req1.take (BUFFER - 1)))).head? ≠ some "AUTH".toList ∨
      ((mots (cstr (req1.take (BUFFER - 1)))).length < 3 ∧
        ∀ w ∈ mots (cstr (req1.take (BUFFER - 1))), w.length ≤ 64)) :
    threadServeurReseau_session s f req1 req2 cmd2_0 = (["AUTH_FAIL".toList], s) := by
  unfold threadServeurReseau_session
  rw [if_neg hne, if_pos (sscanf_auth_malformed _ hmal)]

/-- C15 (amended), on a sample: the request `AUTH alice` has two words. -/
theorem malformed_auth_refused_witness :
    ((mots (cstr ("AUTH alice".toList.take (BUFFER - 1)))).length < 3 ∧
      ∀ w ∈ mots (cstr ("AUTH alice".toList.take (BUFFER - 1))), w.length ≤ 64) ∧
    threadServeurReseau_session etatAlice fichierAlice "AUTH alice".toList
      "VOTE 1 5".toList [] = (["AUTH_FAIL".toList], etatAlice) :=
  ⟨by decide,
   malformed_auth_refused etatAlice fichierAlice "AUTH alice".toList "VOTE 1 5".toList []
     (by decide) (Or.inr (by decide))⟩

/-! ## The session: vote step -/

/-- C17. Evaluation of a session in which alice authenticates and then sends `VOTE 1`,
a submission without candidate id: the reply is `OK`, and alice is recorded as having
voted blank. -/
theorem vote_without_candidate_accepted :
    threadServeurReseau_session etatAlice fichierAlice "AUTH alice pw".toList
      "VOTE 1".toList [] =
    (["AUTH_OK".toList, listeCandidats etatAlice.candidats, "OK".toList],
     { electeurs := [{ id := 1, nom := "Alice".toList, a_vote := 1, vote_blanc := 1,
                       username := "alice".toList }],
       candidats := [{ id := 5, nom := "Bob".toList, voix := 0 }],
       voteOuvert := 1 }) := by
  decide

/-! ## Voter roster -/

/-- C18. Evaluation of two voter registrations with distinct ids and the same login
`a;x`, from the empty roster and an empty ledger: both voters are added, so their
logins are not pairwise distinct, and the ledger lists two accounts with the login `a`. -/
theorem two_voters_same_login :
    (ajouterElecteur
      (ajouterElecteur etatVide fichierVide 1 "Un".toList "a;x".toList "p".toList).1
      (ajouterElecteur etatVide fichierVide 1 "Un".toList "a;x".toList "p".toList).2
      2 "Deux".toList "a;x".toList "p".toList).1 =
      { electeurs := [{ id := 1, nom := "Un".toList, a_vote := 0, vote_blanc := 0,
                        username := "a;x".toList },
                      { id := 2, nom := "Deux".toList, a_vote := 0, vote_blanc := 0,
                        username := "a;x".toList }],
        candidats := [], voteOuvert := 0 } ∧
    auth_list_users (ajouterElecteur
      (ajouterElecteur etatVide fichierVide 1 "Un".toList "a;x".toList "p".toList).1
      (ajouterElecteur etatVide fichierVide 1 "Un".toList "a;x".toList "p".toList).2
      2 "Deux".toList "a;x".toList "p".toList).2 =
      (AUTH_OK,
        [{ username := "a".toList, password := "x".toList, role := "p".toList, active := 0 },
         { username := "a".toList, password := "x".toList, role := "p".toList, active := 0 }]) := by
  decide

/-! ## Printing and scanning integers -/

theorem chiffre_spec (d : Nat) (hd : d < 10) :
    estChiffre (chiffre d) = true ∧ (chiffre d).toNat - '0'.toNat = d ∧
      isspace (chiffre d) = false ∧ chiffre d ≠ '-' ∧ chiffre d ≠ '+' := by
  interval_cases d <;> decide

theorem chiffres_cons_chiffre (d : Nat) (hd : d < 10) (r : CStr) (acc : Nat) :
    chiffres (chiffre d :: r) acc = chiffres r (acc * 10 + d) := by
  obtain ⟨h1, h2, _⟩ := chiffre_spec d hd
  have h1b : '0' ≤ chiffre d ∧ chiffre d ≤ '9' := by simpa [estChiffre] using h1
  simp only [chiffres, if_pos h1b, h2]

theorem chiffres_stop (c : Char) (r : CStr) (acc : Nat) (hc : estChiffre c = false) :
    chiffres (c :: r) acc = acc := by
  have hcb : ¬ ('0' ≤ c ∧ c ≤ '9') := by simpa [estChiffre] using hc
  simp only [chiffres, if_neg hcb]

theorem chiffresDe_spec (fuel : Nat) :
    ∀ n : Nat, n < fuel →
      chiffresDe fuel n ≠ [] ∧ (∀ c ∈ chiffresDe fuel n, estChiffre c = true) ∧
      (∃ d, d < 10 ∧ (chiffresDe fuel n).head? = some (chiffre d)) ∧
      ∀ (acc : Nat) (rest : CStr),
        chiffres (chiffresDe fuel n ++ rest) acc =
          chiffres rest (acc * 10 ^ (chiffresDe fuel n).length + n) := by
  induction fuel with
  | zero => intro n h; omega
  | succ k ih =>
    intro n hn
    by_cases h10 : n < 10
    · simp only [chiffresDe, if_pos h10]
      refine ⟨by simp, ?_, ⟨n, h10, rfl⟩, ?_⟩
      · intro c hc
        rw [List.mem_singleton] at hc
        rw [hc]
        exact (chiffre_spec n h10).1
      · intro acc rest
        simp only [List.singleton_append, List.length_singleton, pow_one]
        exact chiffres_cons_chiffre n h10 rest acc
    · simp only [chiffresDe, if_neg h10]
      have hq : n / 10 < k := by omega
      have hm : n % 10 < 10 := Nat.mod_lt _ (by decide)
      obtain ⟨i1, i2, ⟨d, hd, i3⟩, i4⟩ := ih (n / 10) hq
      refine ⟨by simp, ?_, ⟨d, hd, ?_⟩, ?_⟩
      · intro c hc
        rcases List.mem_append.mp hc with hc | hc
        · exact i2 c hc
        · rw [List.mem_singleton] at hc
          rw [hc]
          exact (chiffre_spec _ hm).1
      · cases hch : chiffresDe k (n / 10) with
        | nil => exact absurd hch i1
        | cons a t =>
          rw [hch] at i3
          simpa using i3
      · intro acc rest
        rw [List.append_assoc, i4, List.singleton_append, chiffres_cons_chiffre _ hm,
          List.length_append, List.length_singleton, pow_succ]
        congr 1
        have := Nat.div_add_mod n 10
        nlinarith [this]

theorem scan_chiffres_ecrireNat (n : Nat) (c : Char) (r : CStr) (hc : estChiffre c = false) :
    scan_chiffres (ecrireNat n ++ c :: r) = some (n, c :: r) := by
  obtain ⟨h1, h2, _, h4⟩ := chiffresDe_spec (n + 1) n (Nat.lt_succ_self n)
  have htake : (ecrireNat n ++ c :: r).takeWhile estChiffre = ecrireNat n := by
    unfold ecrireNat
    rw [List.takeWhile_append_of_pos h2]
    simp [hc]
  have hdrop : (ecrireNat n ++ c :: r).dropWhile estChiffre = c :: r := by
    unfold ecrireNat
    rw [List.dropWhile_append_of_pos h2]
    simp [hc]
  have hval : chiffres (ecrireNat n ++ c :: r) 0 = n := by
    unfold ecrireNat
    rw [h4, chiffres_stop c r _ hc]
    simp
  have h1b : ecrireNat n ≠ [] := h1
  unfold scan_chiffres
  rw [htake, hdrop, hval, if_neg h1b]

theorem ecrireNat_head (n : Nat) :
    ∃ d t, d < 10 ∧ ecrireNat n = chiffre d :: t := by
  obtain ⟨_, _, ⟨d, hd, h3⟩, _⟩ := chiffresDe_spec (n + 1) n (Nat.lt_succ_self n)
  unfold ecrireNat
  cases hch : chiffresDe (n + 1) n with
  | nil => rw [hch] at h3; simp at h3
  | cons a t =>
    rw [hch] at h3
    simp only [List.head?_cons, Option.some.injEq] at h3
    exact ⟨d, t, hd, by rw [h3]⟩

/-- Scanning with `%d` the text printed by `%d`, followed by a character that is not a
digit, gives back the integer and leaves that character. -/
theorem scan_d_ecrireInt (z : Int) (c : Char) (r : CStr) (hc : estChiffre c = false) :
    scan_d (ecrireInt z ++ c :: r) = some (z, c :: r) := by
  cases z with
  | ofNat n =>
    obtain ⟨d, t, hd, hhead⟩ := ecrireNat_head n
    obtain ⟨_, _, hsp, hm, hp⟩ := chiffre_spec d hd
    have hsc := scan_chiffres_ecrireNat n c r hc
    simp only [ecrireInt]
    rw [hhead] at hsc ⊢
    unfold scan_d
    simp only [List.cons_append, List.dropWhile_cons, hsp, Bool.false_eq_true, if_false]
    split
    · rename_i heq
      simp only [List.cons.injEq] at heq
      exact absurd heq.1 hm
    · rename_i heq
      simp only [List.cons.injEq] at heq
      exact absurd heq.1 hp
    · rw [List.cons_append] at hsc
      rw [hsc]
      rfl
  | negSucc n =>
    have hsc := scan_chiffres_ecrireNat (n + 1) c r hc
    simp only [ecrireInt]
    unfold scan_d
    have hsp : isspace '-' = false := by decide
    simp only [List.cons_append, List.dropWhile_cons, hsp, Bool.false_eq_true, if_false]
    rw [hsc]
    simp only [Option.map_some']
    rfl

theorem scan_d_space (c : Char) (r : CStr) (hc : isspace c = true) :
    scan_d (c :: r) = scan_d r := by
  simp [scan_d, List.dropWhile_cons, hc]

theorem fscanf_d_ecrireInt (z ancien : Int) (c : Char) (r : CStr) (hc : estChiffre c = false) :
    fscanf_d (ecrireInt z ++ c :: r) ancien = (z, c :: r) := by
  simp only [fscanf_d, scan_d_ecrireInt z c r hc]

theorem fscanf_d_space_ecrireInt (z ancien : Int) (b c : Char) (r : CStr)
    (hb : isspace b = true) (hc : estChiffre c = false) :
    fscanf_d (b :: (ecrireInt z ++ c :: r)) ancien = (z, c :: r) := by
  simp only [fscanf_d, scan_d_space b _ hb, scan_d_ecrireInt z c r hc]

/-! ## Snapshot: writing then reading -/

theorem scan_d_space_ecrireInt (z : Int) (b c : Char) (r : CStr)
    (hb : isspace b = true) (hc : estChiffre c = false) :
    scan_d (b :: (ecrireInt z ++ c :: r)) = some (z, c :: r) := by
  rw [scan_d_space b _ hb, scan_d_ecrireInt z c r hc]

theorem scan_s_mot (w : CStr) (hw : MotValide w) (c : Char) (rest : CStr)
    (hc : isspace c = true) :
    scan_s none (w ++ c :: rest) = some (w, c :: rest) := by
  obtain ⟨hne, hall⟩ := hw
  cases w with
  | nil => exact absurd rfl hne
  | cons a t =>
    have ha : isspace a = false := hall a (by simp)
    have ht : ∀ x ∈ t, (!isspace x) = true := by
      intro x hx
      simp [hall x (by simp [hx])]
    have htake : (t ++ c :: rest).takeWhile (fun x => !isspace x) = t := by
      rw [List.takeWhile_append_of_pos ht]
      simp [hc]
    rw [List.cons_append, scan_s_word none a _ ha, htake]
    simp only [prendre]
    have hdrop : (a :: (t ++ c :: rest)).drop (a :: t).length = c :: rest := by
      have : a :: (t ++ c :: rest) = (a :: t) ++ c :: rest := rfl
      rw [this]
      exact List.drop_left _ _
    rw [hdrop]

theorem scan_s_space_mot (w : CStr) (hw : MotValide w) (b c : Char) (rest : CStr)
    (hb : isspace b = true) (hc : isspace c = true) :
    scan_s none (b :: (w ++ c :: rest)) = some (w, c :: rest) := by
  rw [scan_s_space none b _ hb, scan_s_mot w hw c rest hc]

/-- Reading back the line written for a voter whose name and login are valid words
that fit their arrays gives the voter. -/
theorem lireElecteur_ligne (e : Electeur) (b : Char) (rest : CStr) (hb : isspace b = true)
    (hn : MotValide e.nom) (hnl : e.nom.length ≤ 49)
    (hu : MotValide e.username) (hul : e.username.length ≤ AUTH_MAX_USERNAME) :
    lireElecteur (b :: (ligneElecteur e ++ rest)) = some (e, '\n' :: rest) := by
  have hsp : isspace ' ' = true := by decide
  have hnl2 : isspace '\n' = true := by decide
  have hnd : estChiffre ' ' = false := by decide
  have hshape : ligneElecteur e ++ rest =
      ecrireInt e.id ++ ' ' :: (e.nom ++ ' ' :: (ecrireInt e.a_vote ++ ' ' ::
        (ecrireInt e.vote_blanc ++ ' ' :: (e.username ++ '\n' :: rest)))) := by
    simp [ligneElecteur]
  unfold lireElecteur
  rw [hshape, scan_d_space_ecrireInt e.id b ' ' _ hb hnd]
  simp only
  rw [scan_s_space_mot e.nom hn ' ' ' ' _ hsp hsp]
  simp only
  rw [if_neg (by omega), scan_d_space_ecrireInt e.a_vote ' ' ' ' _ hsp hnd]
  simp only
  rw [scan_d_space_ecrireInt e.vote_blanc ' ' ' ' _ hsp hnd]
  simp only
  rw [scan_s_space_mot e.username hu ' ' '\n' _ hsp hnl2]
  simp only
  rw [if_neg (by omega)]

theorem lireCandidat_ligne (c : Candidat) (b : Char) (rest : CStr) (hb : isspace b = true)
    (hn : MotValide c.nom) (hnl : c.nom.length ≤ 49) :
    lireCandidat (b :: (ligneCandidatSauvegarde c ++ rest)) = some (c, '\n' :: rest) := by
  have hsp : isspace ' ' = true := by decide
  have hnd : estChiffre ' ' = false := by decide
  have hnd2 : estChiffre '\n' = false := by decide
  have hshape : ligneCandidatSauvegarde c ++ rest =
      ecrireInt c.id ++ ' ' :: (c.nom ++ ' ' :: (ecrireInt c.voix ++ '\n' :: rest)) := by
    simp [ligneCandidatSauvegarde]
  unfold lireCandidat
  rw [hshape, scan_d_space_ecrireInt c.id b ' ' _ hb hnd]
  simp only
  rw [scan_s_space_mot c.nom hn ' ' ' ' _ hsp hsp]
  simp only
  rw [if_neg (by omega), scan_d_space_ecrireInt c.voix ' ' '\n' _ hsp hnd2]

theorem lireElecteurs_lignes (es : List Electeur)
    (hes : ∀ e ∈ es, MotValide e.nom ∧ e.nom.length ≤ 49 ∧
      MotValide e.username ∧ e.username.length ≤ AUTH_MAX_USERNAME) :
    ∀ rest : CStr,
      lireElecteurs es.length ('\n' :: (es.flatMap ligneElecteur ++ rest)) =
        some (es, '\n' :: rest) := by
  induction es with
  | nil => intro rest; rfl
  | cons e es ih =>
    intro rest
    obtain ⟨h1, h2, h3, h4⟩ := hes e (by simp)
    have ih2 := ih (fun x hx => hes x (by simp [hx])) rest
    simp only [List.length_cons, lireElecteurs, List.flatMap_cons, List.append_assoc]
    rw [lireElecteur_ligne e '\n' _ (by decide) h1 h2 h3 h4]
    simp only
    rw [ih2]

theorem lireCandidats_lignes (cs : List Candidat)
    (hcs : ∀ c ∈ cs, MotValide c.nom ∧ c.nom.length ≤ 49) :
    ∀ rest : CStr,
      lireCandidats cs.length ('\n' :: (cs.flatMap ligneCandidatSauvegarde ++ rest)) =
        some (cs, '\n' :: rest) := by
  induction cs with
  | nil => intro rest; rfl
  | cons c cs ih =>
    intro rest
    obtain ⟨h1, h2⟩ := hcs c (by simp)
    have ih2 := ih (fun x hx => hcs x (by simp [hx])) rest
    simp only [List.length_cons, lireCandidats, List.flatMap_cons, List.append_assoc]
    rw [lireCandidat_ligne c '\n' _ (by decide) h1 h2]
    simp only
    rw [ih2]

/-- C19. The election built on the console by registering the voter `Jean Dupont`:
its snapshot is written, and read back with the name `Jean` and an empty login. -/
theorem snapshot_name_with_space :
    etatJean = { electeurs := [{ id := 1, nom := "Jean Dupont".toList, a_vote := 0,
                                 vote_blanc := 0, username := "jean".toList }],
                 candidats := [], voteOuvert := 0 } ∧
    (sauvegarderDonnees etatJean fichierSauvegarde).contenu =
      some "0\n1\n1 Jean Dupont 0 0 jean\n0\n".toList ∧
    chargerDonnees (sauvegarderDonnees etatJean fichierSauvegarde) =
      some { electeurs := [{ id := 1, nom := "Jean".toList, a_vote := 0,
                             vote_blanc := 0, username := [] }],
             candidats := [], voteOuvert := 0 } ∧
    chargerDonnees (sauvegarderDonnees etatJean fichierSauvegarde) ≠ some etatJean := by
  decide

/-- C19 (amended). Election snapshot round trip: for every election state with at most
`MAX` voters and candidates whose names (at most 49 characters) and logins (at most 64)
are not empty and hold no white space, and every snapshot file that can be opened for
writing and for reading, `sauvegarderDonnees` followed by `chargerDonnees` gives back
the same state: same `voteOuvert`, same voters and candidates, field for field. -/
theorem snapshot_round_trip (s : Etat) (d : Fichier) (hs : EtatSauvegardable s)
    (hw : d.inscriptible = true) (hr : d.lisible = true) :
    chargerDonnees (sauvegarderDonnees s d) = some s := by
  obtain ⟨hle, hlc, hes, hcs⟩ := hs
  have hnl : estChiffre '\n' = false := by decide
  have hsp : isspace '\n' = true := by decide
  have hsave : sauvegarderDonnees s d = { d with contenu := some (texteSauvegarde s) } := by
    simp [sauvegarderDonnees, fopen_w, hw]
  have hopen : fopen_r (sauvegarderDonnees s d) = some (texteSauvegarde s) := by
    rw [hsave]
    simp [fopen_r, hr]
  have h1 : fscanf_d (texteSauvegarde s) 0 =
      (s.voteOuvert, '\n' :: (ecrireInt (s.electeurs.length : Int) ++ '\n' ::
        (s.electeurs.flatMap ligneElecteur ++
          (ecrireInt (s.candidats.length : Int) ++ '\n' ::
            s.candidats.flatMap ligneCandidatSauvegarde)))) := by
    unfold texteSauvegarde
    exact fscanf_d_ecrireInt _ _ _ _ hnl
  have hcE : ¬ ((s.electeurs.length : Int) > (MAX : Int)) := by
    have : (s.electeurs.length : Int) ≤ (MAX : Int) := by exact_mod_cast hle
    omega
  have hcC : ¬ ((s.candidats.length : Int) > (MAX : Int)) := by
    have : (s.candidats.length : Int) ≤ (MAX : Int) := by exact_mod_cast hlc
    omega
  have h3 := lireElecteurs_lignes s.electeurs hes
    (ecrireInt (s.candidats.length : Int) ++ '\n' ::
      s.candidats.flatMap ligneCandidatSauvegarde)
  have h5 := lireCandidats_lignes s.candidats hcs []
  rw [List.append_nil] at h5
  unfold chargerDonnees
  rw [hopen]
  simp only [h1]
  rw [fscanf_d_space_ecrireInt _ _ '\n' '\n' _ hsp hnl]
  simp only [Int.toNat_ofNat]
  rw [if_neg hcE, h3]
  simp only
  rw [fscanf_d_space_ecrireInt _ _ '\n' '\n' _ hsp hnl]
  simp only [Int.toNat_ofNat]
  rw [if_neg hcC, h5]

/-- C19 (amended), on a sample: the election with alice and the candidate Bob. -/
theorem snapshot_round_trip_witness :
    EtatSauvegardable etatAlice ∧
    chargerDonnees (sauvegarderDonnees etatAlice fichierSauvegarde) = some etatAlice :=
  ⟨by decide, snapshot_round_trip etatAlice fichierSauvegarde (by decide) (by decide) (by decide)⟩

/-! ## The session: role gate -/

theorem versInt_id (x : Int) (h1 : INT_MIN ≤ x) (h2 : x ≤ INT_MAX) : versInt x = x := by
  unfold INT_MIN at h1
  unfold INT_MAX at h2
  unfold versInt wrapInt
  rw [min_eq_left (by omega), max_eq_right (by omega)]
  omega

theorem digitChar_chiffre (d : Nat) (hd : d < 10) : Nat.digitChar d = chiffre d := by
  interval_cases d <;> rfl

theorem toDigitsCore_chiffresDe (fuel : Nat) :
    ∀ (n : Nat) (ds : List Char), n < fuel →
      Nat.toDigitsCore 10 fuel n ds = chiffresDe fuel n ++ ds := by
  induction fuel with
  | zero => intro n ds h; omega
  | succ k ih =>
    intro n ds hn
    have hm : n % 10 < 10 := Nat.mod_lt _ (by decide)
    by_cases h10 : n < 10
    · have hq : n / 10 = 0 := by omega
      have hr : n % 10 = n := by omega
      simp only [Nat.toDigitsCore, Nat.toDigits, hq, if_true, chiffresDe, if_pos h10]
      rw [digitChar_chiffre _ hm, hr]
      rfl
    · have hq : n / 10 ≠ 0 := by omega
      have hk : n / 10 < k := by omega
      simp only [Nat.toDigitsCore, hq, if_false, chiffresDe, if_neg h10]
      rw [ih (n / 10) _ hk, digitChar_chiffre _ hm]
      simp

/-- The text that `%d` prints is the decimal numeral of the integer. -/
theorem ecrireInt_toString (z : Int) : ecrireInt z = (toString z).toList := by
  cases z with
  | ofNat n =>
    show ecrireNat n = Nat.toDigits 10 n
    unfold ecrireNat Nat.toDigits
    rw [toDigitsCore_chiffresDe (n + 1) n [] (Nat.lt_succ_self n)]
    simp
  | negSucc n =>
    show '-' :: ecrireNat (n + 1) = '-' :: Nat.toDigits 10 (n + 1)
    unfold ecrireNat Nat.toDigits
    rw [toDigitsCore_chiffresDe (n + 1 + 1) (n + 1) [] (Nat.lt_succ_self _)]
    simp

theorem estChiffre_of_isspace (c : Char) (hc : isspace c = true) : estChiffre c = false := by
  simp only [isspace, Bool.or_eq_true, decide_eq_true_eq] at hc
  rcases hc with ((((h | h) | h) | h) | h) | h <;> (subst h; decide)

theorem scan_chiffres_ecrireNat_fin (n : Nat) : scan_chiffres (ecrireNat n) = some (n, []) := by
  obtain ⟨h1, h2, _, h4⟩ := chiffresDe_spec (n + 1) n (Nat.lt_succ_self n)
  have htake : (ecrireNat n).takeWhile estChiffre = ecrireNat n := by
    unfold ecrireNat
    exact List.takeWhile_eq_self_iff.mpr h2
  have hdrop : (ecrireNat n).dropWhile estChiffre = [] := by
    unfold ecrireNat
    exact List.dropWhile_eq_nil_iff.mpr h2
  have hval : chiffres (ecrireNat n) 0 = n := by
    have h := h4 0 []
    rw [List.append_nil] at h
    unfold ecrireNat
    rw [h]
    simp [chiffres]
  have h1b : ecrireNat n ≠ [] := h1
  unfold scan_chiffres
  rw [htake, hdrop, hval, if_neg h1b]

/-- Scanning with `%d` a decimal numeral that ends the text gives its value. -/
theorem scan_d_ecrireInt_fin (z : Int) : scan_d (ecrireInt z) = some (z, []) := by
  cases z with
  | ofNat n =>
    obtain ⟨d, t, hd, hhead⟩ := ecrireNat_head n
    obtain ⟨_, _, hsp, hm, hp⟩ := chiffre_spec d hd
    have hsc := scan_chiffres_ecrireNat_fin n
    simp only [ecrireInt]
    rw [hhead] at hsc ⊢
    unfold scan_d
    simp only [List.dropWhile_cons, hsp, Bool.false_eq_true, if_false]
    split
    · rename_i heq
      simp only [List.cons.injEq] at heq
      exact absurd heq.1 hm
    · rename_i heq
      simp only [List.cons.injEq] at heq
      exact absurd heq.1 hp
    · rw [hsc]
      rfl
  | negSucc n =>
    have hsc := scan_chiffres_ecrireNat_fin (n + 1)
    simp only [ecrireInt]
    unfold scan_d
    have hsp : isspace '-' = false := by decide
    simp only [List.dropWhile_cons, hsp, Bool.false_eq_true, if_false]
    rw [hsc]
    simp only [Option.map_some']
    rfl

/-- Scanning with `%d` a decimal numeral followed by the end of the text or by white
space gives its value and leaves what follows. -/
theorem scan_d_numeral (z : Int) (rest : CStr)
    (hrest : rest = [] ∨ ∃ c r, rest = c :: r ∧ isspace c = true) :
    scan_d ((toString z).toList ++ rest) = some (z, rest) := by
  rw [← ecrireInt_toString]
  rcases hrest with rfl | ⟨c, r, rfl, hc⟩
  · rw [List.append_nil]
    exact scan_d_ecrireInt_fin z
  · exact scan_d_ecrireInt z c r (estChiffre_of_isspace c hc)

theorem scan_d_dropWhile (s : CStr) : scan_d (s.dropWhile isspace) = scan_d s := by
  induction s with
  | nil => rfl
  | cons c r ih =>
    cases hc : isspace c with
    | true => rw [List.dropWhile_cons_of_pos hc, ih, scan_d_space c r hc]
    | false => rw [List.dropWhile_cons_of_neg (by simp [hc])]

/-- The first word of a text: after the leading white space come the word, then the end
of the text or a white-space character, and the other words are those of what follows. -/
theorem mots_cons_split (s : CStr) :
    ∀ (w : CStr) (ws : List CStr), mots s = w :: ws →
      ∃ rest, s.dropWhile isspace = w ++ rest ∧
        (rest = [] ∨ ∃ c r, rest = c :: r ∧ isspace c = true) ∧ mots rest = ws := by
  induction s with
  | nil => intro w ws h; rw [mots_nil] at h; simp at h
  | cons c r ih =>
    intro w ws h
    cases hc : isspace c with
    | true =>
      rw [mots_cons_space c r hc] at h
      rw [List.dropWhile_cons_of_pos hc]
      exact ih w ws h
    | false =>
      rw [mots_cons_word c r hc] at h
      simp only [List.cons.injEq] at h
      obtain ⟨rfl, rfl⟩ := h
      rw [List.dropWhile_cons_of_neg (by simp [hc])]
      refine ⟨r.dropWhile (fun x => !isspace x), ?_, ?_, rfl⟩
      · simp [List.takeWhile_append_dropWhile]
      · cases hd : r.dropWhile (fun x => !isspace x) with
        | nil => left; rfl
        | cons d t =>
          right
          refine ⟨d, t, rfl, ?_⟩
          have := List.head_dropWhile_not (fun x => !isspace x) r (by rw [hd]; simp)
          simpa [hd] using this

/-- A `%d` conversion in front of a text whose first word is a decimal numeral reads
the value of that numeral and leaves the other words. -/
theorem scan_d_of_mots_cons (s : CStr) (z : Int) (ws : List CStr)
    (h : mots s = (toString z).toList :: ws) :
    ∃ rest, scan_d s = some (z, rest) ∧ mots rest = ws := by
  obtain ⟨rest, hs, hrest, hm⟩ := mots_cons_split s _ ws h
  refine ⟨rest, ?_, hm⟩
  rw [← scan_d_dropWhile, hs]
  exact scan_d_numeral z rest hrest

/-- A vote request whose words are `VOTE` and the decimal numerals of two values of type
`int` is scanned into the command and these two values. -/
theorem sscanf_vote_of_mots (b cmd2_0 : CStr) (idE idC : Int)
    (h : mots b = ["VOTE".toList, (toString idE).toList, (toString idC).toList])
    (hE1 : INT_MIN ≤ idE) (hE2 : idE ≤ INT_MAX) (hC1 : INT_MIN ≤ idC) (hC2 : idC ≤ INT_MAX) :
    sscanf_vote b cmd2_0 = ("VOTE".toList, idE, idC) := by
  obtain ⟨r1, h1, m1⟩ := scan_s_of_mots_cons 15 b _ _ h (by decide)
  obtain ⟨r2, h2, m2⟩ := scan_d_of_mots_cons r1 idE _ m1
  obtain ⟨r3, h3, _⟩ := scan_d_of_mots_cons r2 idC _ m2
  simp only [sscanf_vote, h1, h2, h3, versInt_id idE hE1 hE2, versInt_id idC hC1 hC2]

/-- The reply of the vote step to a `VOTE` submission is `OK` exactly when the vote is
open and some voter record has the submitted id, the session login and `a_vote = 0`. -/
theorem reponseVote_ok_iff (s : Etat) (username : CStr) (idE idC : Int) :
    reponseVote (threadServeurReseau_vote s "VOTE".toList username idE idC).2 = "OK".toList ↔
      (s.voteOuvert ≠ 0 ∧
        ∃ e ∈ s.electeurs, e.id = idE ∧ e.username = username ∧ e.a_vote = 0) := by
  rcases threadServeurReseau_vote_cases s "VOTE".toList username idE idC with
    ⟨hrej, heq⟩ | ⟨_, hopen, pre, e, post, hes, he, _, heq⟩
  · rw [heq]
    refine ⟨fun h => absurd h reponseVote_zero_ne_ok, ?_⟩
    rintro ⟨hopen, e, hmem, he⟩
    exfalso
    rcases hrej with h | h | h
    · exact h rfl
    · exact hopen h
    · exact h e hmem he
  · rw [heq]
    have hmem : e ∈ s.electeurs := by rw [hes]; simp
    exact ⟨fun _ => ⟨hopen, e, hmem, he⟩, fun _ => rfl⟩

/-- The candidate list of step 2, character by character. -/
theorem listeCandidats_texte (cs : List Candidat) :
    listeCandidats cs = "\n--- LISTE DES CANDIDATS ---\n".toList ++
      (cs.flatMap (fun c => '[' :: ((toString c.id).toList ++ ']' :: ' ' :: (c.nom ++ ['\n']))) ++
        "[0] VOTE BLANC\n---------------------------\n".toList) := by
  unfold listeCandidats
  have hf : ligneCandidat =
      (fun c => '[' :: ((toString c.id).toList ++ ']' :: ' ' :: (c.nom ++ ['\n']))) := by
    funext c
    simp only [ligneCandidat, ecrireInt_toString]
  rw [hf]

/-- The session after a well-formed authentication request, case by case. -/
theorem threadServeurReseau_session_auth (s : Etat) (f : Fichier)
    (req1 req2 cmd2_0 login password : List Char)
    (hw : mots (cstr (req1.take (BUFFER - 1))) = ["AUTH".toList, login, password])
    (hl : login.length ≤ 64) (hp : password.length ≤ 64) :
    threadServeurReseau_session s f req1 req2 cmd2_0 =
      if (auth_authenticate f login password uAuth0).1 ≠ AUTH_OK ∨
          (auth_authenticate f login password uAuth0).2.role ≠ "votant".toList then
        (["AUTH_FAIL".toList], s)
      else if req2 = [] then (["AUTH_OK".toList, listeCandidats s.candidats], s)
      else
        (["AUTH_OK".toList, listeCandidats s.candidats,
          reponseVote (threadServeurReseau_vote s
            (sscanf_vote (cstr (req2.take (BUFFER - 1))) cmd2_0).1 login
            (sscanf_vote (cstr (req2.take (BUFFER - 1))) cmd2_0).2.1
            (sscanf_vote (cstr (req2.take (BUFFER - 1))) cmd2_0).2.2).2],
         (threadServeurReseau_vote s
            (sscanf_vote (cstr (req2.take (BUFFER - 1))) cmd2_0).1 login
            (sscanf_vote (cstr (req2.take (BUFFER - 1))) cmd2_0).2.1
            (sscanf_vote (cstr (req2.take (BUFFER - 1))) cmd2_0).2.2).1) := by
  have hscan : sscanf_auth (cstr (req1.take (BUFFER - 1))) =
      (3, "AUTH".toList, login, password) :=
    sscanf_auth_of_mots _ _ _ _ hw (by decide) hl hp
  have hne : req1 ≠ [] := by
    intro h
    rw [h] at hw
    simp [cstr, mots, decouperBlancs] at hw
  have hwf : ¬ ((3 : Int) ≠ 3 ∨ "AUTH".toList ≠ "AUTH".toList) := by simp
  unfold threadServeurReseau_session
  rw [if_neg hne, hscan]
  simp only
  rw [if_neg hwf]

/-- C16, counterexample. The request `AUTH bob` followed by a password token of 65
characters is a well-formed authentication request; `auth_authenticate` refuses that
login and password (`AUTH_ERR_INVALID`), yet the handler, which keeps the first 64
characters of the token, replies `AUTH_OK`. -/
theorem role_gate_overlong_password :
    mots (cstr (requeteLongMdp.take (BUFFER - 1))) =
      ["AUTH".toList, "bob".toList, List.replicate 65 'p'] ∧
    (auth_authenticate fichierLongMdp "bob".toList (List.replicate 65 'p') uAuth0).1 =
      AUTH_ERR_INVALID ∧
    (threadServeurReseau_session etatAlice fichierLongMdp requeteLongMdp [] []).1.head? =
      some "AUTH_OK".toList := by
  decide

/-- C16, amended. Role gate: for a first request whose words are `AUTH`, a login and a
password of at most 64 characters, the handler replies `AUTH_OK` exactly when
`auth_authenticate` returns `AUTH_OK` for that login and password with an account whose
role is `votant`.  In that case, when every candidate line `[id] name` is shorter than
the 100 bytes of `ligne` and the candidate list `liste` (the header, the candidate lines,
the blank-vote line and the footer) is shorter than `BUFFER`, the second message is that
list; the session ends there when no second request arrives; and on a second request
whose words are `VOTE` and the decimal numerals of two values `idE`, `idC` of type `int`,
the handler runs the vote step with that login, `idE` and `idC` and sends its reply,
which is `OK` exactly when the vote is open and some voter record has the id `idE`,
that login and `a_vote = 0`.  In every other case it sends `AUTH_FAIL` only and the
election state is unchanged. -/
theorem role_gate (s : Etat) (f : Fichier) (req1 req2 cmd2_0 login password liste : List Char)
    (ligne : Candidat → List Char)
    (hw : mots (cstr (req1.take (BUFFER - 1))) = ["AUTH".toList, login, password])
    (hl : login.length ≤ 64) (hp : password.length ≤ 64)
    (hligne : ligne =
      fun c => '[' :: ((toString c.id).toList ++ ']' :: ' ' :: (c.nom ++ ['\n'])))
    (hliste : liste = "\n--- LISTE DES CANDIDATS ---\n".toList ++
      (s.candidats.flatMap ligne ++ "[0] VOTE BLANC\n---------------------------\n".toList)) :
    ((threadServeurReseau_session s f req1 req2 cmd2_0).1.head? = some "AUTH_OK".toList ↔
      ((auth_authenticate f login password uAuth0).1 = AUTH_OK ∧
        (auth_authenticate f login password uAuth0).2.role = "votant".toList)) ∧
    (((auth_authenticate f login password uAuth0).1 = AUTH_OK ∧
        (auth_authenticate f login password uAuth0).2.role = "votant".toList) →
      (∀ c ∈ s.candidats, (ligne c).length < 100) → liste.length < BUFFER →
      (threadServeurReseau_session s f req1 req2 cmd2_0).1.take 2 =
        ["AUTH_OK".toList, liste] ∧
      (req2 = [] →
        threadServeurReseau_session s f req1 req2 cmd2_0 = (["AUTH_OK".toList, liste], s)) ∧
      ∀ idE idC : Int, INT_MIN ≤ idE → idE ≤ INT_MAX → INT_MIN ≤ idC → idC ≤ INT_MAX →
        mots (cstr (req2.take (BUFFER - 1))) =
          ["VOTE".toList, (toString idE).toList, (toString idC).toList] →
        threadServeurReseau_session s f req1 req2 cmd2_0 =
          (["AUTH_OK".toList, liste,
            reponseVote (threadServeurReseau_vote s "VOTE".toList login idE idC).2],
           (threadServeurReseau_vote s "VOTE".toList login idE idC).1) ∧
        ((threadServeurReseau_session s f req1 req2 cmd2_0).1 =
            ["AUTH_OK".toList, liste, "OK".toList] ↔
          (s.voteOuvert ≠ 0 ∧
            ∃ e ∈ s.electeurs, e.id = idE ∧ e.username = login ∧ e.a_vote = 0))) ∧
    (¬ ((auth_authenticate f login password uAuth0).1 = AUTH_OK ∧
        (auth_authenticate f login password uAuth0).2.role = "votant".toList) →
      threadServeurReseau_session s f req1 req2 cmd2_0 = (["AUTH_FAIL".toList], s)) := by
  have hsess := threadServeurReseau_session_auth s f req1 req2 cmd2_0 login password hw hl hp
  have hlist : listeCandidats s.candidats = liste := by
    rw [hliste, hligne]
    exact listeCandidats_texte s.candidats
  rw [hlist] at hsess
  by_cases hcond : (auth_authenticate f login password uAuth0).1 = AUTH_OK ∧
      (auth_authenticate f login password uAuth0).2.role = "votant".toList
  · have hgate : ¬ ((auth_authenticate f login password uAuth0).1 ≠ AUTH_OK ∨
        (auth_authenticate f login password uAuth0).2.role ≠ "votant".toList) := by
      rintro (h | h)
      · exact h hcond.1
      · exact h hcond.2
    rw [if_neg hgate] at hsess
    refine ⟨⟨fun _ => hcond, fun _ => ?_⟩, fun _ _ _ => ⟨?_, ?_, ?_⟩, fun h => absurd hcond h⟩
    · rw [hsess]
      split <;> rfl
    · rw [hsess]
      split <;> rfl
    · intro hr2
      rw [hsess, if_pos hr2]
    · intro idE idC hE1 hE2 hC1 hC2 hv
      have hr2 : req2 ≠ [] := by
        intro h
        rw [h] at hv
        simp [cstr, mots, decouperBlancs] at hv
      have hscan := sscanf_vote_of_mots _ cmd2_0 idE idC hv hE1 hE2 hC1 hC2
      rw [if_neg hr2, hscan] at hsess
      simp only at hsess
      refine ⟨hsess, ?_⟩
      rw [hsess, ← reponseVote_ok_iff s login idE idC]
      simp only [List.cons.injEq, true_and, and_true]
  · have hgate : (auth_authenticate f login password uAuth0).1 ≠ AUTH_OK ∨
        (auth_authenticate f login password uAuth0).2.role ≠ "votant".toList := by
      by_cases h1 : (auth_authenticate f login password uAuth0).1 = AUTH_OK
      · right
        exact fun h2 => hcond ⟨h1, h2⟩
      · left
        exact h1
    rw [if_pos hgate] at hsess
    rw [hsess]
    refine ⟨⟨fun h => ?_, fun h => absurd h hcond⟩, fun h => absurd h hcond, fun _ => rfl⟩
    have hdiff : some "AUTH_FAIL".toList ≠ some "AUTH_OK".toList := by decide
    exact absurd h hdiff

/-- C16 (amended), on a sample: alice, a voter, sends `AUTH alice pw` then `VOTE 1 5`
while the vote is open; she obtains `AUTH_OK`, the candidate list and `OK`. -/
theorem role_gate_witness :
    mots (cstr ("AUTH alice pw".toList.take (BUFFER - 1))) =
      ["AUTH".toList, "alice".toList, "pw".toList] ∧
    ((auth_authenticate fichierAlice "alice".toList "pw".toList uAuth0).1 = AUTH_OK ∧
      (auth_authenticate fichierAlice "alice".toList "pw".toList uAuth0).2.role =
        "votant".toList) ∧
    mots (cstr ("VOTE 1 5".toList.take (BUFFER - 1))) =
      ["VOTE".toList, (toString (1 : Int)).toList, (toString (5 : Int)).toList] ∧
    (threadServeurReseau_session etatAlice fichierAlice "AUTH alice pw".toList
        "VOTE 1 5".toList []).1 =
      ["AUTH_OK".toList,
       "\n--- LISTE DES CANDIDATS ---\n[5] Bob\n[0] VOTE BLANC\n---------------------------\n".toList,
       "OK".toList] :=
  ⟨by decide, by decide, by decide,
   ((((role_gate etatAlice fichierAlice "AUTH alice pw".toList "VOTE 1 5".toList []
        "alice".toList "pw".toList
        "\n--- LISTE DES CANDIDATS ---\n[5] Bob\n[0] VOTE BLANC\n---------------------------\n".toList
        (fun c => '[' :: ((toString c.id).toList ++ ']' :: ' ' :: (c.nom ++ ['\n'])))
        (by decide) (by decide) (by decide) rfl (by decide)).2.1
        (by decide) (by decide) (by decide)).2.2
      1 5 (by decide) (by decide) (by decide) (by decide) (by decide)).2).mpr
     (by decide)⟩

end PIvote
